import Mathlib

set_option maxHeartbeats 1000000

/-!
Shallow embedding of the j2s JSON-to-IR inference engine
(src/codegen/types.rs and src/codegen/utils.rs) and proofs about it.

Conventions of the embedding:
* serde_json `Value` becomes the `Json` inductive; numbers are split into
  `int` (is_i64/is_u64) and `float` (fractional), since only that
  discrimination is observed by the engine.
* serde_json object maps (BTreeMap: unique, key-sorted) are embedded as
  association lists; every place the Rust code iterates the map, the
  embedding iterates the key-sorted list `sortPairs fields`.
* Rust `HashSet<String>` registries become `List String` with membership;
  `HashMap` accumulators become association lists kept in first-seen order.
* Rust character classes (is_alphanumeric, to_lowercase, ...) are modelled
  with Lean's ASCII `Char` predicates.
* The `while` loop searching for a fresh struct-name suffix is modelled
  with fuel `generated.length + 1`, which is enough by pigeonhole.
* fallible functions return `Except J2sError`.
-/

namespace J2s

/-- Embedded JSON values (serde_json::Value). -/
inductive Json where
  | null : Json
  | bool (b : Bool) : Json
  | str (s : String) : Json
  | int (n : Int) : Json
  | float (n : Int) : Json
  | arr (elems : List Json) : Json
  | obj (fields : List (String × Json)) : Json

/-! Decimal rendering of naturals, modelling Rust's `format!("{}", n)`.
Implemented with structural fuel so that it evaluates by kernel reduction;
`valOf` is its verified inverse, giving injectivity. -/

def digitVal (c : Char) : Nat := c.toNat - 48

def valOf (l : List Char) : Nat := l.foldl (fun acc c => acc * 10 + digitVal c) 0

def natDigitsAux : Nat → Nat → List Char
  | 0, _ => []
  | fuel + 1, n => if n = 0 then [] else natDigitsAux fuel (n / 10) ++ [Nat.digitChar (n % 10)]

def natRepr (n : Nat) : String := if n = 0 then "0" else String.mk (natDigitsAux n n)

theorem valOf_append_singleton (l : List Char) (c : Char) :
    valOf (l ++ [c]) = valOf l * 10 + digitVal c := by
  simp [valOf, List.foldl_append]

theorem digitVal_digitChar : ∀ m, m < 10 → digitVal (Nat.digitChar m) = m := by decide

theorem valOf_natDigitsAux : ∀ fuel n, n ≤ fuel → valOf (natDigitsAux fuel n) = n := by
  intro fuel
  induction fuel with
  | zero => intro n h; interval_cases n; simp [natDigitsAux, valOf]
  | succ fuel ih =>
    intro n h
    by_cases h0 : n = 0
    · simp [natDigitsAux, h0, valOf]
    · have hdiv : n / 10 ≤ fuel := by
        have : n / 10 < n := Nat.div_lt_self (Nat.pos_of_ne_zero h0) (by omega)
        omega
      have hmod : n % 10 < 10 := Nat.mod_lt _ (by omega)
      simp only [natDigitsAux, h0, if_false]
      rw [valOf_append_singleton, ih _ hdiv, digitVal_digitChar _ hmod]
      omega

theorem natRepr_inj {n m : Nat} (h : natRepr n = natRepr m) : n = m := by
  have hdata : (natRepr n).data = (natRepr m).data := by rw [h]
  by_cases hn : n = 0 <;> by_cases hm : m = 0
  · omega
  · exfalso
    simp only [natRepr, hn, hm, if_true, if_false] at hdata
    have h1 : valOf (String.mk (natDigitsAux m m)).data = m := valOf_natDigitsAux m m Nat.le.refl
    rw [← hdata] at h1
    simp [valOf, digitVal] at h1
    omega
  · exfalso
    simp only [natRepr, hn, hm, if_true, if_false] at hdata
    have h1 : valOf (String.mk (natDigitsAux n n)).data = n := valOf_natDigitsAux n n Nat.le.refl
    rw [hdata] at h1
    simp [valOf, digitVal] at h1
    omega
  · simp only [natRepr, hn, hm, if_false] at hdata
    have h1 : valOf (natDigitsAux n n) = n := valOf_natDigitsAux n n Nat.le.refl
    have h2 : valOf (natDigitsAux m m) = m := valOf_natDigitsAux m m Nat.le.refl
    rw [hdata] at h1
    omega

theorem natRepr_ne_empty (n : Nat) : natRepr n ≠ "" := by
  by_cases hn : n = 0
  · simp [natRepr, hn]
  · simp only [natRepr, hn, if_false]
    intro h
    have hdata : natDigitsAux n n = ("" : String).data := congrArg String.data h
    have h1 : valOf (natDigitsAux n n) = n := valOf_natDigitsAux n n Nat.le.refl
    rw [hdata] at h1
    simp [valOf] at h1
    omega

/-! Port of `NameConverter` from src/codegen/utils.rs.  Strings are
processed as their underlying `List Char`; Rust's Unicode character
classes are modelled by Lean's ASCII `Char` predicates. -/

namespace NameConverter

/-- `NameConverter::get_reserved_keywords`. -/
def get_reserved_keywords (language : String) : List String :=
  if language = "go" then
    ["break", "case", "chan", "const", "continue", "default", "defer", "else",
     "fallthrough", "for", "func", "go", "goto", "if", "import", "interface",
     "map", "package", "range", "return", "select", "struct", "switch", "type",
     "var", "bool", "byte", "complex64", "complex128", "error", "float32",
     "float64", "int", "int8", "int16", "int32", "int64", "rune", "string",
     "uint", "uint8", "uint16", "uint32", "uint64", "uintptr", "true", "false",
     "iota", "nil", "append", "cap", "close", "complex", "copy", "delete",
     "imag", "len", "make", "new", "panic", "print", "println", "real", "recover"]
  else if language = "rust" then
    ["as", "break", "const", "continue", "crate", "else", "enum", "extern",
     "false", "fn", "for", "if", "impl", "in", "let", "loop", "match", "mod",
     "move", "mut", "pub", "ref", "return", "self", "Self", "static", "struct",
     "super", "trait", "true", "type", "unsafe", "use", "where", "while",
     "async", "await", "dyn", "abstract", "become", "box", "do", "final",
     "macro", "override", "priv", "typeof", "unsized", "virtual", "yield",
     "try", "union", "raw"]
  else if language = "typescript" then
    ["break", "case", "catch", "class", "const", "continue", "debugger",
     "default", "delete", "do", "else", "enum", "export", "extends", "false",
     "finally", "for", "function", "if", "import", "in", "instanceof", "new",
     "null", "return", "super", "switch", "this", "throw", "true", "try",
     "typeof", "var", "void", "while", "with", "as", "implements", "interface",
     "let", "package", "private", "protected", "public", "static", "yield",
     "any", "boolean", "constructor", "declare", "get", "module", "require",
     "number", "set", "string", "symbol", "type", "from", "of", "namespace",
     "abstract", "async", "await", "is", "keyof", "readonly", "unique",
     "infer", "never", "object", "unknown"]
  else if language = "python" then
    ["False", "None", "True", "and", "as", "assert", "async", "await", "break",
     "class", "continue", "def", "del", "elif", "else", "except", "finally",
     "for", "from", "global", "if", "import", "in", "is", "lambda", "nonlocal",
     "not", "or", "pass", "raise", "return", "try", "while", "with", "yield",
     "match", "case", "type", "int", "float", "str", "bool", "list", "dict",
     "tuple", "set", "frozenset", "bytes", "bytearray", "memoryview", "range",
     "enumerate", "zip", "map", "filter", "sorted", "reversed", "len", "sum",
     "min", "max", "abs", "round", "pow", "divmod", "isinstance", "issubclass",
     "hasattr", "getattr", "setattr", "delattr", "callable", "iter", "next",
     "open", "print", "input", "repr", "str", "chr", "ord", "hex", "oct", "bin"]
  else []

/-- `NameConverter::has_special_characters`. -/
def has_special_characters (input : String) : Bool :=
  input.data.any (fun c => !c.isAlphanum && c != '_')

/-- Model of Rust `str::trim_matches('_')` (both ends). -/
def trimBothUnderscores (l : List Char) : List Char :=
  ((l.dropWhile (fun c => c == '_')).reverse.dropWhile (fun c => c == '_')).reverse

/-- Model of Rust `str::trim_end_matches('_')`. -/
def trimEndUnderscores (l : List Char) : List Char :=
  (l.reverse.dropWhile (fun c => c == '_')).reverse

/-- `NameConverter::clean_string`: replace every character outside
`[A-Za-z0-9_]` by an underscore, then trim underscores at both ends. -/
def clean_string (input : String) : String :=
  String.mk (trimBothUnderscores
    (input.data.map (fun c => if c.isAlphanum || c == '_' then c else '_')))

/-- `NameConverter::capitalize_word`. -/
def capitalize_word : List Char → List Char
  | [] => []
  | c :: rest => c.toUpper :: rest.map Char.toLower

def isSepChar (c : Char) : Bool := c == '_' || c == '-' || c == ' '

/-- Split on `_`, `-`, and spaces, dropping empty parts
(the `split(..).filter(|s| !s.is_empty())` step of `to_pascal_case`). -/
def splitPartsAux : List Char → List Char → List (List Char)
  | [], cur => if cur.isEmpty then [] else [cur]
  | c :: rest, cur =>
    if isSepChar c then
      if cur.isEmpty then splitPartsAux rest [] else cur :: splitPartsAux rest []
    else splitPartsAux rest (cur ++ [c])

def splitParts (l : List Char) : List (List Char) := splitPartsAux l []

/-- Per-part loop of `to_pascal_case`: split `aB` camel boundaries while
tracking `prev_was_lower`, capitalizing each collected word. -/
def pascalPartAux : List Char → List Char → Bool → List Char
  | [], cur, _ => if cur.isEmpty then [] else capitalize_word cur
  | c :: rest, cur, prevLower =>
    if c.isUpper && prevLower && !cur.isEmpty then
      capitalize_word cur ++ pascalPartAux rest [c] c.isLower
    else
      pascalPartAux rest (cur ++ [c]) c.isLower

/-- `NameConverter::to_pascal_case`. -/
def to_pascal_case (input : String) : String :=
  String.mk ((splitParts input.data).foldl (fun result part => result ++ pascalPartAux part [] false) [])

/-- `NameConverter::to_camel_case`: PascalCase with the first character lowered. -/
def to_camel_case (input : String) : String :=
  match (to_pascal_case input).data with
  | [] => ""
  | c :: rest => String.mk (c.toLower :: rest)

/-- Character loop of `to_snake_case`: underscore before an upper-case char
that starts a new word (next char lower-case or end), separators to
underscores, everything lowered. -/
def snakeCoreAux : List Char → Bool → List Char
  | [], _ => []
  | c :: rest, resultNonempty =>
    let boundary := c.isUpper && resultNonempty &&
      (match rest with | [] => true | nxt :: _ => nxt.isLower)
    let transformed := if c == '-' || c == ' ' then '_' else c.toLower
    (if boundary then ['_'] else []) ++ transformed :: snakeCoreAux rest true

/-- Fixpoint of replacing `__` by `_` (the `while result.contains("__")` loop). -/
def collapse_underscores : List Char → List Char
  | [] => []
  | [c] => [c]
  | c :: d :: rest =>
    if c == '_' && d == '_' then collapse_underscores (d :: rest)
    else c :: collapse_underscores (d :: rest)

/-- `NameConverter::to_snake_case`. -/
def to_snake_case (input : String) : String :=
  String.mk (trimBothUnderscores (collapse_underscores (snakeCoreAux input.data false)))

/-- Character normalization step of `sanitize_identifier`: the first
character must be a letter or underscore (digits get an underscore
prefix), the rest are mapped into `[A-Za-z0-9_]`. -/
def sanitizeCore : List Char → List Char
  | [] => []
  | first :: rest =>
    (if first.isAlpha || first == '_' then [first]
     else if first.isDigit then ['_', first]
     else ['_'])
    ++ rest.map (fun ch => if ch.isAlphanum || ch == '_' then ch else '_')

/-- `NameConverter::sanitize_identifier`. -/
def sanitize_identifier (input : String) (keywords : List String) : String :=
  if input.data.isEmpty then "field"
  else
    let sanitized := trimEndUnderscores (collapse_underscores (sanitizeCore input.data))
    let sanitized :=
      if keywords.contains (String.mk (sanitized.map Char.toLower)) then sanitized ++ ['_']
      else sanitized
    if sanitized.isEmpty || sanitized.all (fun c => c == '_') then "field"
    else String.mk sanitized

/-- `NameConverter::sanitize_identifier_for_language`. -/
def sanitize_identifier_for_language (input : String) (language : String) : String :=
  sanitize_identifier input (get_reserved_keywords language)

/-- `NameConverter::convert_field_name`. -/
def convert_field_name (input : String) (language : String) : String :=
  let cleaned := if has_special_characters input then clean_string input else input
  let converted :=
    if language = "go" then to_pascal_case cleaned
    else if language = "typescript" then to_camel_case cleaned
    else if language = "rust" || language = "python" then to_snake_case cleaned
    else cleaned
  sanitize_identifier_for_language converted language

/-- `NameConverter::convert_type_name`. -/
def convert_type_name (input : String) (language : String) : String :=
  let cleaned := if has_special_characters input then clean_string input else input
  let converted :=
    if language = "go" || language = "rust" || language = "typescript" || language = "python"
    then to_pascal_case cleaned
    else cleaned
  sanitize_identifier_for_language converted language

end NameConverter

example : NameConverter.to_pascal_case "user_name" = "UserName" := by decide
example : NameConverter.to_pascal_case "a_a" = "AA" := by decide
example : NameConverter.to_pascal_case "a_a_0" = "AA0" := by decide
example : NameConverter.to_snake_case "XMLHttpRequest" = "xml_http_request" := by decide
example : NameConverter.to_camel_case "a_b_c" = "aBC" := by decide
example : NameConverter.convert_type_name "type" "go" = "Type_" := by decide
example : NameConverter.convert_field_name "user123Name" "rust" = "user123_name" := by decide
example : NameConverter.convert_type_name "False" "python" = "False" := by decide
example : NameConverter.sanitize_identifier "123invalid" ["type"] = "_123invalid" := by decide
example : NameConverter.sanitize_identifier "" ["type"] = "field" := by decide

/-! The intermediate representation of src/codegen/types.rs. -/

inductive FieldType where
  | string : FieldType
  | integer : FieldType
  | number : FieldType
  | boolean : FieldType
  | custom (name : String) : FieldType
  | any : FieldType
deriving DecidableEq, Repr

/-- `FieldType::Custom(_)` discriminator (the `matches!` in `is_custom`). -/
def FieldType.isCustomB : FieldType → Bool
  | .custom _ => true
  | _ => false

structure FieldDefinition where
  json_name : String
  code_name : String
  field_type : FieldType
  is_optional : Bool
  is_array : Bool
  comments : List String
  metadata : List (String × String)
deriving DecidableEq, Repr

structure StructDefinition where
  name : String
  fields : List FieldDefinition
  nested_structs : List StructDefinition
  comments : List String
  metadata : List (String × String)

inductive J2sError where
  | codegen (msg : String) : J2sError
deriving DecidableEq, Repr

/-- The mutable converter state of `JsonToIrConverter`
(`generated_names`, `current_path`, `current_depth`); the `HashSet` of
names is modelled as a list used only through membership. -/
structure ConvState where
  generatedNames : List String
  currentPath : List String
  currentDepth : Nat
deriving DecidableEq, Repr

/-! Key-sorted iteration of embedded JSON objects (serde_json maps are
BTreeMaps, iterated in ascending key order; `convert_object_to_struct`
additionally sorts its key list explicitly). -/

/-- Lexicographic order on code points; for UTF-8 this coincides with
Rust's byte-lexicographic `Ord` for `String` used by `sort`/`cmp`. -/
def charListLe : List Char → List Char → Bool
  | [], _ => true
  | _ :: _, [] => false
  | a :: as, b :: bs =>
    if a.toNat < b.toNat then true
    else if a.toNat = b.toNat then charListLe as bs
    else false

def strLeB (a b : String) : Bool := charListLe a.data b.data

theorem charListLe_total : ∀ as bs : List Char,
    charListLe as bs = true ∨ charListLe bs as = true := by
  intro as
  induction as with
  | nil => intro bs; left; simp [charListLe]
  | cons a as ih =>
    intro bs
    cases bs with
    | nil => right; simp [charListLe]
    | cons b bs =>
      by_cases h1 : a.toNat < b.toNat
      · left; simp [charListLe, h1]
      · by_cases h2 : a.toNat = b.toNat
        · cases ih bs with
          | inl h => left; simp [charListLe, h1, h2, h]
          | inr h =>
            right
            have h3 : ¬ b.toNat < a.toNat := by omega
            simp [charListLe, h3, h2.symm, h]
        · right
          have h3 : b.toNat < a.toNat := by omega
          simp [charListLe, h3]

theorem charListLe_trans : ∀ as bs cs : List Char,
    charListLe as bs = true → charListLe bs cs = true → charListLe as cs = true := by
  intro as
  induction as with
  | nil => intro bs cs _ _; simp [charListLe]
  | cons a as ih =>
    intro bs cs hab hbc
    cases bs with
    | nil => simp [charListLe] at hab
    | cons b bs =>
      cases cs with
      | nil => simp [charListLe] at hbc
      | cons c cs =>
        simp only [charListLe] at hab hbc ⊢
        split at hab
        · rename_i h1
          split at hbc
          · rename_i h2
            have : a.toNat < c.toNat := by omega
            simp [this]
          · split at hbc
            · rename_i h2 h3
              have : a.toNat < c.toNat := by omega
              simp [this]
            · exact absurd hbc (by simp)
        · split at hab
          · rename_i h1 h2
            split at hbc
            · rename_i h3
              have : a.toNat < c.toNat := by omega
              simp [this]
            · split at hbc
              · rename_i h3 h4
                have h5 : ¬ a.toNat < c.toNat := by omega
                have h6 : a.toNat = c.toNat := by omega
                rw [if_neg h5, if_pos h6]
                exact ih bs cs hab hbc
              · exact absurd hbc (by simp)
          · exact absurd hab (by simp)

def pairLe (a b : String × Json) : Prop := strLeB a.1 b.1 = true

instance : DecidableRel pairLe := fun a b => inferInstanceAs (Decidable (strLeB a.1 b.1 = true))

instance : IsTotal (String × Json) pairLe := ⟨fun a b => charListLe_total a.1.data b.1.data⟩

instance : IsTrans (String × Json) pairLe :=
  ⟨fun _ _ _ h h' => charListLe_trans _ _ _ h h'⟩

def sortPairs (l : List (String × Json)) : List (String × Json) := l.insertionSort pairLe

theorem perm_sizeOf_eq {α} [SizeOf α] {l₁ l₂ : List α} (h : l₁.Perm l₂) :
    sizeOf l₁ = sizeOf l₂ := by
  induction h with
  | nil => rfl
  | cons x _ ih => simp [ih]
  | swap x y l => simp; omega
  | trans _ _ ih₁ ih₂ => omega

theorem sizeOf_sortPairs (l : List (String × Json)) : sizeOf (sortPairs l) = sizeOf l :=
  perm_sizeOf_eq (List.perm_insertionSort pairLe l)

/-- Ordering of the merged-field entries of `create_unified_struct_from_array`
(`sort_by(|a, b| a.0.cmp(&b.0))`). -/
def entryLe (a b : String × FieldType × Bool × Bool) : Prop := strLeB a.1 b.1 = true

instance : DecidableRel entryLe := fun a b => inferInstanceAs (Decidable (strLeB a.1 b.1 = true))

instance : IsTotal (String × FieldType × Bool × Bool) entryLe :=
  ⟨fun a b => charListLe_total a.1.data b.1.data⟩

instance : IsTrans (String × FieldType × Bool × Bool) entryLe :=
  ⟨fun _ _ _ h h' => charListLe_trans _ _ _ h h'⟩

def sortEntries (l : List (String × FieldType × Bool × Bool)) :
    List (String × FieldType × Bool × Bool) := l.insertionSort entryLe

def isNullB : Json → Bool
  | .null => true
  | _ => false

/-- The `while self.generated_names.contains(&final_name)` loop of
`generate_nested_struct_name`, modelled with fuel
`generated.length + 1` (sufficient by pigeonhole, see
`freshLoop_not_mem`). -/
def freshLoop (convertedName : String) (generated : List String)
    (finalName : String) (counter : Nat) : Nat → String
  | 0 => finalName
  | fuel + 1 =>
    if generated.contains finalName then
      freshLoop convertedName generated (convertedName ++ natRepr counter) (counter + 1) fuel
    else finalName

/-- `JsonToIrConverter::generate_nested_struct_name`: build a base name from
the last ≤ 3 path segments plus the field name, convert it to a type name,
de-duplicate against the registry with numeric suffixes, register it. -/
def generate_nested_struct_name (language : String) (fieldName : String)
    (st : ConvState) : String × ConvState :=
  let nameParts := st.currentPath ++ [fieldName]
  let baseName :=
    if nameParts.length > 3 then
      String.intercalate "_" (nameParts.drop (nameParts.length - 3))
    else String.intercalate "_" nameParts
  let convertedName := NameConverter.convert_type_name baseName language
  let finalName := freshLoop convertedName st.generatedNames convertedName 1
    (st.generatedNames.length + 1)
  (finalName, { st with generatedNames := finalName :: st.generatedNames })

/-- The `element_types.entry(t).or_insert(0) += 1` accumulator, as an
association list in first-seen order. -/
def bumpCount (t : FieldType) : List (FieldType × Nat) → List (FieldType × Nat)
  | [] => [(t, 1)]
  | (u, n) :: rest => if u = t then (u, n + 1) :: rest else (u, n) :: bumpCount t rest

/-- The per-key merge step of `create_unified_struct_from_array`: on a
repeated key, differing types degrade to Any and the optional/array flags
are OR-ed; a new key is inserted with the observed flags. -/
def updateUnified (key : String) (ftype : FieldType) (isOpt isArr : Bool) :
    List (String × FieldType × Bool × Bool) → List (String × FieldType × Bool × Bool)
  | [] => [(key, ftype, isOpt, isArr)]
  | (k, t, o, a) :: rest =>
    if k = key then (k, (if t ≠ ftype then .any else t), o || isOpt, a || isArr) :: rest
    else (k, t, o, a) :: updateUnified key ftype isOpt isArr rest

/-- Key set of one object element (a `HashSet<String>` of its keys). -/
def keyList (fields : List (String × Json)) : List String :=
  ((sortPairs fields).map Prod.fst).dedup

def unionKeys (a b : List String) : List String := a ++ b.filter (fun k => !a.contains k)

def interKeys (a b : List String) : List String := a.filter (fun k => b.contains k)

/-- `all_keys` accumulation of `analyze_mixed_object_types`. -/
def collectAllKeys (elems : List Json) : List String :=
  elems.foldl (fun acc e => match e with
    | .obj fs => unionKeys acc (keyList fs)
    | _ => acc) []

/-- `common_keys` accumulation of `analyze_mixed_object_types`. -/
def collectCommonKeys (elems : List Json) : Option (List String) :=
  elems.foldl (fun acc e => match e with
    | .obj fs => match acc with
      | none => some (keyList fs)
      | some existing => some (interKeys existing (keyList fs))
    | _ => acc) none

/-- One step of `iter().max_by_key(|(_, count)| *count)`: keep the later
entry on ties, as `max_by_key` returns the last maximal element. -/
def maxStep (acc : Option (FieldType × Nat)) (p : FieldType × Nat) :
    Option (FieldType × Nat) :=
  match acc with
  | none => some p
  | some q => if p.2 ≥ q.2 then some p else some q

/-- `iter().max_by_key(|(_, count)| *count)`: the last entry holding the
maximal count, in iteration order. -/
def maxByCount (l : List (FieldType × Nat)) : FieldType :=
  match l.foldl maxStep none with
  | some p => p.1
  | none => .any

/-- `JsonToIrConverter::determine_common_primitive_type`. -/
def determine_common_primitive_type (typeCounts : List (FieldType × Nat)) :
    Except J2sError FieldType :=
  let types := typeCounts.map Prod.fst
  if types.length > 2 then .ok .any
  else if types.contains .any then .ok .any
  else if types.contains .string && types.length > 1 then .ok .any
  else if types.contains .boolean && (types.contains .number || types.contains .integer) then
    .ok .any
  else if types.contains .number && types.contains .integer then .ok .number
  else .ok (maxByCount typeCounts)

/-- The depth-bound error message of `convert_object_to_struct`. -/
def mkTooDeepMsg (maxDepth : Nat) (path : List String) : String :=
  "Maximum recursion depth (" ++ natRepr maxDepth ++
    ") exceeded while processing nested structures at path: " ++
    String.intercalate "." path ++
    ". Consider increasing max_depth or simplifying the JSON structure."

/-- The non-object error message of `convert_object_to_struct`. -/
def mkNotObjectMsg (path : List String) : String :=
  "Expected JSON object for struct conversion at path: " ++ String.intercalate "." path

/-- The `is_optional` determination at the top of
`convert_value_to_field`: a null value, or an array containing a null
element, makes the field optional. -/
def jsonIsOptional (value : Json) : Bool :=
  match value with
  | .null => true
  | .arr elems => elems.any isNullB
  | _ => false

/-! The recursive conversion engine (`impl JsonToIrConverter`).  Rust's
`&mut self` state is threaded as `ConvState`; the `&mut Vec` of nested
structs collected by each enclosing object is threaded as a list; the
`for` loops become the `_loop` helpers.  `language` and `maxDepth` are
the immutable converter configuration. -/

mutual

/-- `JsonToIrConverter::convert_object_to_struct`. -/
def convert_object_to_struct (language : String) (maxDepth : Nat) (v : Json)
    (structName : String) (st : ConvState) :
    Except J2sError (StructDefinition × ConvState) :=
  if st.currentDepth ≥ maxDepth then
    .error (.codegen (mkTooDeepMsg maxDepth st.currentPath))
  else
    match v with
    | .obj fields =>
      match convert_fields_loop language maxDepth (sortPairs fields) []
        { st with currentDepth := st.currentDepth + 1 } with
      | .error e => .error e
      | .ok (flds, nested, st2) =>
        .ok ({ name := structName, fields := flds, nested_structs := nested,
               comments := [], metadata := [] },
             { st2 with currentDepth := st2.currentDepth - 1 })
    | _ => .error (.codegen (mkNotObjectMsg st.currentPath))

termination_by 8 * sizeOf v
decreasing_by all_goals (first | omega | (simp only [Json.obj.sizeOf_spec, Json.arr.sizeOf_spec, List.cons.sizeOf_spec, List.nil.sizeOf_spec, Prod.mk.sizeOf_spec, sizeOf_sortPairs]; omega))

/-- The sorted-key field loop inside `convert_object_to_struct`: push the
key on the current path, convert the value to a field, pop the path. -/
def convert_fields_loop (language : String) (maxDepth : Nat)
    (l : List (String × Json)) (nested : List StructDefinition) (st : ConvState) :
    Except J2sError (List FieldDefinition × List StructDefinition × ConvState) :=
  match l with
  | [] => .ok ([], nested, st)
  | (key, value) :: rest =>
    match convert_value_to_field language maxDepth key value nested
      { st with currentPath := st.currentPath ++ [key] } with
    | .error e => .error e
    | .ok (fd, nested1, st2) =>
      match convert_fields_loop language maxDepth rest nested1
        { st2 with currentPath := st2.currentPath.dropLast } with
      | .error e => .error e
      | .ok (flds, nested2, st4) => .ok (fd :: flds, nested2, st4)

termination_by 8 * sizeOf l + 3
decreasing_by all_goals (first | omega | (simp only [Json.obj.sizeOf_spec, Json.arr.sizeOf_spec, List.cons.sizeOf_spec, List.nil.sizeOf_spec, Prod.mk.sizeOf_spec, sizeOf_sortPairs]; omega))

/-- `JsonToIrConverter::convert_value_to_field`. -/
def convert_value_to_field (language : String) (maxDepth : Nat)
    (fieldName : String) (value : Json) (nested : List StructDefinition)
    (st : ConvState) :
    Except J2sError (FieldDefinition × List StructDefinition × ConvState) :=
  match process_json_type_with_value language maxDepth value fieldName nested st with
  | .error e => .error e
  | .ok ((ftype, isArray), nested1, st1) =>
    .ok ({ json_name := fieldName,
           code_name := NameConverter.convert_field_name fieldName language,
           field_type := ftype,
           is_optional := jsonIsOptional value,
           is_array := isArray, comments := [],
           metadata := [("json_name", fieldName)] }, nested1, st1)

termination_by 8 * sizeOf value + 2
decreasing_by all_goals (first | omega | (simp only [Json.obj.sizeOf_spec, Json.arr.sizeOf_spec, List.cons.sizeOf_spec, List.nil.sizeOf_spec, Prod.mk.sizeOf_spec, sizeOf_sortPairs]; omega))

/-- `JsonToIrConverter::process_json_type_with_value`. -/
def process_json_type_with_value (language : String) (maxDepth : Nat)
    (v : Json) (fieldName : String) (nested : List StructDefinition)
    (st : ConvState) :
    Except J2sError ((FieldType × Bool) × List StructDefinition × ConvState) :=
  match v with
  | .arr elems =>
    if elems.isEmpty then .ok ((.any, true), nested, st)
    else
      match analyze_array_element_type language maxDepth elems fieldName nested st with
      | .error e => .error e
      | .ok (t, nested1, st1) => .ok ((t, true), nested1, st1)
  | .obj fields =>
    if fields.isEmpty then .ok ((.any, false), nested, st)
    else
      match convert_object_to_struct language maxDepth (.obj fields)
        (generate_nested_struct_name language fieldName st).1
        (generate_nested_struct_name language fieldName st).2 with
      | .error e => .error e
      | .ok (sd, st1) =>
        .ok ((.custom (generate_nested_struct_name language fieldName st).1, false),
             nested ++ [sd], st1)
  | .str _ => .ok ((.string, false), nested, st)
  | .int _ => .ok ((.integer, false), nested, st)
  | .float _ => .ok ((.number, false), nested, st)
  | .bool _ => .ok ((.boolean, false), nested, st)
  | .null => .ok ((.any, false), nested, st)

termination_by 8 * sizeOf v + 1
decreasing_by all_goals (first | omega | (simp only [Json.obj.sizeOf_spec, Json.arr.sizeOf_spec, List.cons.sizeOf_spec, List.nil.sizeOf_spec, Prod.mk.sizeOf_spec, sizeOf_sortPairs]; omega))

/-- `JsonToIrConverter::analyze_array_element_type`. -/
def analyze_array_element_type (language : String) (maxDepth : Nat)
    (elems : List Json) (fieldName : String) (nested : List StructDefinition)
    (st : ConvState) :
    Except J2sError (FieldType × List StructDefinition × ConvState) :=
  if elems.isEmpty then .ok (.any, nested, st)
  else
    match analyze_elements_loop language maxDepth elems fieldName 0 [] false false nested st with
    | .error e => .error e
    | .ok (elementTypes, hasObjects, hasPrimitives, nested1, st1) =>
      if elementTypes.length = 1 then
        .ok ((elementTypes.headD (.any, 0)).1, nested1, st1)
      else if hasObjects && hasPrimitives then .ok (.any, nested1, st1)
      else if hasObjects then
        analyze_mixed_object_types language maxDepth elems fieldName nested1 st1
      else
        match determine_common_primitive_type elementTypes with
        | .error e => .error e
        | .ok t => .ok (t, nested1, st1)

termination_by 8 * sizeOf elems + 6
decreasing_by all_goals (first | omega | (simp only [Json.obj.sizeOf_spec, Json.arr.sizeOf_spec, List.cons.sizeOf_spec, List.nil.sizeOf_spec, Prod.mk.sizeOf_spec, sizeOf_sortPairs]; omega))

/-- The enumerated element loop inside `analyze_array_element_type`:
classify each element under the name `{field}_{index}`, tallying type
counts and the has-objects / has-primitives flags. -/
def analyze_elements_loop (language : String) (maxDepth : Nat)
    (elems : List Json) (fieldName : String) (index : Nat)
    (elementTypes : List (FieldType × Nat)) (hasObjects hasPrimitives : Bool)
    (nested : List StructDefinition) (st : ConvState) :
    Except J2sError (List (FieldType × Nat) × Bool × Bool × List StructDefinition × ConvState) :=
  match elems with
  | [] => .ok (elementTypes, hasObjects, hasPrimitives, nested, st)
  | element :: rest =>
    match process_json_type_with_value language maxDepth element
      (fieldName ++ "_" ++ natRepr index) nested st with
    | .error e => .error e
    | .ok ((elementType, _), nested1, st1) =>
      analyze_elements_loop language maxDepth rest fieldName (index + 1)
        (bumpCount elementType elementTypes) (hasObjects || elementType.isCustomB)
        (hasPrimitives || !elementType.isCustomB) nested1 st1

termination_by 8 * sizeOf elems + 2
decreasing_by all_goals (first | omega | (simp only [Json.obj.sizeOf_spec, Json.arr.sizeOf_spec, List.cons.sizeOf_spec, List.nil.sizeOf_spec, Prod.mk.sizeOf_spec, sizeOf_sortPairs]; omega))

/-- `JsonToIrConverter::analyze_mixed_object_types`. -/
def analyze_mixed_object_types (language : String) (maxDepth : Nat)
    (elems : List Json) (fieldName : String) (nested : List StructDefinition)
    (st : ConvState) :
    Except J2sError (FieldType × List StructDefinition × ConvState) :=
  match collectCommonKeys elems with
  | some common =>
    if !common.isEmpty && common.length > (collectAllKeys elems).length / 2 then
      match create_unified_struct_from_array language maxDepth elems
        (generate_nested_struct_name language (fieldName ++ "_item") st).1
        (generate_nested_struct_name language (fieldName ++ "_item") st).2 with
      | .error e => .error e
      | .ok (sd, st1) =>
        .ok (.custom (generate_nested_struct_name language (fieldName ++ "_item") st).1,
             nested ++ [sd], st1)
    else .ok (.any, nested, st)
  | none => .ok (.any, nested, st)

termination_by 8 * sizeOf elems + 5
decreasing_by all_goals (first | omega | (simp only [Json.obj.sizeOf_spec, Json.arr.sizeOf_spec, List.cons.sizeOf_spec, List.nil.sizeOf_spec, Prod.mk.sizeOf_spec, sizeOf_sortPairs]; omega))

/-- `JsonToIrConverter::create_unified_struct_from_array`. -/
def create_unified_struct_from_array (language : String) (maxDepth : Nat)
    (elems : List Json) (structName : String) (st : ConvState) :
    Except J2sError (StructDefinition × ConvState) :=
  match create_unified_loop language maxDepth elems [] [] st with
  | .error e => .error e
  | .ok (unifiedFields, nestedLocal, st1) =>
    .ok ({ name := structName,
           fields := (sortEntries unifiedFields).map (fun p =>
             { json_name := p.1,
               code_name := NameConverter.convert_field_name p.1 language,
               field_type := p.2.1, is_optional := p.2.2.1, is_array := p.2.2.2,
               comments := [], metadata := [] : FieldDefinition }),
           nested_structs := nestedLocal, comments := [], metadata := [] }, st1)

termination_by 8 * sizeOf elems + 4
decreasing_by all_goals (first | omega | (simp only [Json.obj.sizeOf_spec, Json.arr.sizeOf_spec, List.cons.sizeOf_spec, List.nil.sizeOf_spec, Prod.mk.sizeOf_spec, sizeOf_sortPairs]; omega))

/-- Element loop of `create_unified_struct_from_array`: only object
elements contribute fields. -/
def create_unified_loop (language : String) (maxDepth : Nat)
    (elems : List Json) (acc : List (String × FieldType × Bool × Bool))
    (nested : List StructDefinition) (st : ConvState) :
    Except J2sError (List (String × FieldType × Bool × Bool) × List StructDefinition × ConvState) :=
  match elems with
  | [] => .ok (acc, nested, st)
  | element :: rest =>
    match element with
    | .obj fs =>
      match create_unified_obj_loop language maxDepth (sortPairs fs) acc nested st with
      | .error e => .error e
      | .ok (acc1, nested1, st1) =>
        create_unified_loop language maxDepth rest acc1 nested1 st1
    | _ => create_unified_loop language maxDepth rest acc nested st

termination_by 8 * sizeOf elems + 3
decreasing_by all_goals (first | omega | (simp only [Json.obj.sizeOf_spec, Json.arr.sizeOf_spec, List.cons.sizeOf_spec, List.nil.sizeOf_spec, Prod.mk.sizeOf_spec, sizeOf_sortPairs]; omega))

/-- Per-object key/value loop of `create_unified_struct_from_array`. -/
def create_unified_obj_loop (language : String) (maxDepth : Nat)
    (pairs : List (String × Json)) (acc : List (String × FieldType × Bool × Bool))
    (nested : List StructDefinition) (st : ConvState) :
    Except J2sError (List (String × FieldType × Bool × Bool) × List StructDefinition × ConvState) :=
  match pairs with
  | [] => .ok (acc, nested, st)
  | (key, value) :: rest =>
    match process_json_type_with_value language maxDepth value key nested st with
    | .error e => .error e
    | .ok ((ftype, isArray), nested1, st1) =>
      create_unified_obj_loop language maxDepth rest
        (updateUnified key ftype (isNullB value) isArray acc) nested1 st1

termination_by 8 * sizeOf pairs + 2
decreasing_by all_goals (first | omega | (simp only [Json.obj.sizeOf_spec, Json.arr.sizeOf_spec, List.cons.sizeOf_spec, List.nil.sizeOf_spec, Prod.mk.sizeOf_spec, sizeOf_sortPairs]; omega))
end

/-- `JsonToIrConverter::convert_to_struct`: reset the depth counter, the
name registry and the path, then convert. -/
def convert_to_struct (language : String) (maxDepth : Nat) (st : ConvState)
    (v : Json) (structName : String) :
    Except J2sError (StructDefinition × ConvState) :=
  convert_object_to_struct language maxDepth v structName
    { st with currentDepth := 0, generatedNames := [], currentPath := [] }

/-- A run of `convert_to_struct` on a freshly constructed converter. -/
def convertToStruct (language : String) (maxDepth : Nat) (v : Json)
    (structName : String) : Except J2sError (StructDefinition × ConvState) :=
  convert_to_struct language maxDepth ⟨[], [], 0⟩ v structName

/-! Step lemmas: one propositional equation per branch of each converter
function, used to drive concrete evaluations and inductions. -/

theorem convert_object_to_struct_deep {language maxDepth v structName st}
    (h : st.currentDepth ≥ maxDepth) :
    convert_object_to_struct language maxDepth v structName st =
      .error (.codegen (mkTooDeepMsg maxDepth st.currentPath)) := by
  rw [convert_object_to_struct.eq_def, if_pos h]

theorem convert_object_to_struct_obj_ok {language maxDepth fields structName st flds nested st2}
    (h : ¬ st.currentDepth ≥ maxDepth)
    (hloop : convert_fields_loop language maxDepth (sortPairs fields) []
      { st with currentDepth := st.currentDepth + 1 } = .ok (flds, nested, st2)) :
    convert_object_to_struct language maxDepth (.obj fields) structName st =
      .ok ({ name := structName, fields := flds, nested_structs := nested,
             comments := [], metadata := [] },
           { st2 with currentDepth := st2.currentDepth - 1 }) := by
  rw [convert_object_to_struct.eq_def, if_neg h]
  simp only [hloop]

theorem convert_object_to_struct_obj_err {language maxDepth fields structName st e}
    (h : ¬ st.currentDepth ≥ maxDepth)
    (hloop : convert_fields_loop language maxDepth (sortPairs fields) []
      { st with currentDepth := st.currentDepth + 1 } = .error e) :
    convert_object_to_struct language maxDepth (.obj fields) structName st = .error e := by
  rw [convert_object_to_struct.eq_def, if_neg h]
  simp only [hloop]

theorem convert_fields_loop_nil {language maxDepth nested st} :
    convert_fields_loop language maxDepth [] nested st = .ok ([], nested, st) := by
  rw [convert_fields_loop.eq_def]

theorem convert_fields_loop_cons_ok {language maxDepth key value rest nested st fd nested1 st2 flds nested2 st4}
    (hfd : convert_value_to_field language maxDepth key value nested
      { st with currentPath := st.currentPath ++ [key] } = .ok (fd, nested1, st2))
    (hrest : convert_fields_loop language maxDepth rest nested1
      { st2 with currentPath := st2.currentPath.dropLast } = .ok (flds, nested2, st4)) :
    convert_fields_loop language maxDepth ((key, value) :: rest) nested st =
      .ok (fd :: flds, nested2, st4) := by
  rw [convert_fields_loop.eq_def]
  simp only [hfd, hrest]

theorem convert_fields_loop_cons_err1 {language maxDepth key value rest nested st e}
    (hfd : convert_value_to_field language maxDepth key value nested
      { st with currentPath := st.currentPath ++ [key] } = .error e) :
    convert_fields_loop language maxDepth ((key, value) :: rest) nested st = .error e := by
  rw [convert_fields_loop.eq_def]
  simp only [hfd]

theorem convert_fields_loop_cons_err2 {language maxDepth key value rest nested st fd nested1 st2 e}
    (hfd : convert_value_to_field language maxDepth key value nested
      { st with currentPath := st.currentPath ++ [key] } = .ok (fd, nested1, st2))
    (hrest : convert_fields_loop language maxDepth rest nested1
      { st2 with currentPath := st2.currentPath.dropLast } = .error e) :
    convert_fields_loop language maxDepth ((key, value) :: rest) nested st = .error e := by
  rw [convert_fields_loop.eq_def]
  simp only [hfd, hrest]

theorem convert_value_to_field_ok {language maxDepth fieldName value nested st t b nested1 st1}
    (hp : process_json_type_with_value language maxDepth value fieldName nested st =
      .ok ((t, b), nested1, st1)) :
    convert_value_to_field language maxDepth fieldName value nested st =
      .ok ({ json_name := fieldName,
             code_name := NameConverter.convert_field_name fieldName language,
             field_type := t,
             is_optional := jsonIsOptional value,
             is_array := b, comments := [],
             metadata := [("json_name", fieldName)] }, nested1, st1) := by
  rw [convert_value_to_field.eq_def]
  simp only [hp]

theorem convert_value_to_field_err {language maxDepth fieldName value nested st e}
    (hp : process_json_type_with_value language maxDepth value fieldName nested st = .error e) :
    convert_value_to_field language maxDepth fieldName value nested st = .error e := by
  rw [convert_value_to_field.eq_def]
  simp only [hp]

theorem process_str {language maxDepth s fieldName nested st} :
    process_json_type_with_value language maxDepth (.str s) fieldName nested st =
      .ok ((.string, false), nested, st) := by
  rw [process_json_type_with_value.eq_def]

theorem process_int {language maxDepth n fieldName nested st} :
    process_json_type_with_value language maxDepth (.int n) fieldName nested st =
      .ok ((.integer, false), nested, st) := by
  rw [process_json_type_with_value.eq_def]

theorem process_float {language maxDepth n fieldName nested st} :
    process_json_type_with_value language maxDepth (.float n) fieldName nested st =
      .ok ((.number, false), nested, st) := by
  rw [process_json_type_with_value.eq_def]

theorem process_bool {language maxDepth b fieldName nested st} :
    process_json_type_with_value language maxDepth (.bool b) fieldName nested st =
      .ok ((.boolean, false), nested, st) := by
  rw [process_json_type_with_value.eq_def]

theorem process_null {language maxDepth fieldName nested st} :
    process_json_type_with_value language maxDepth .null fieldName nested st =
      .ok ((.any, false), nested, st) := by
  rw [process_json_type_with_value.eq_def]

theorem process_arr_empty {language maxDepth fieldName nested st} :
    process_json_type_with_value language maxDepth (.arr []) fieldName nested st =
      .ok ((.any, true), nested, st) := by
  rw [process_json_type_with_value.eq_def]
  rfl

theorem process_arr_ok {language maxDepth elems fieldName nested st t nested1 st1}
    (hne : elems.isEmpty = false)
    (ha : analyze_array_element_type language maxDepth elems fieldName nested st =
      .ok (t, nested1, st1)) :
    process_json_type_with_value language maxDepth (.arr elems) fieldName nested st =
      .ok ((t, true), nested1, st1) := by
  rw [process_json_type_with_value.eq_def]
  simp only [hne, Bool.false_eq_true, if_false, ha]

theorem process_arr_err {language maxDepth elems fieldName nested st e}
    (hne : elems.isEmpty = false)
    (ha : analyze_array_element_type language maxDepth elems fieldName nested st = .error e) :
    process_json_type_with_value language maxDepth (.arr elems) fieldName nested st = .error e := by
  rw [process_json_type_with_value.eq_def]
  simp only [hne, Bool.false_eq_true, if_false, ha]

theorem process_obj_empty {language maxDepth fieldName nested st} :
    process_json_type_with_value language maxDepth (.obj []) fieldName nested st =
      .ok ((.any, false), nested, st) := by
  rw [process_json_type_with_value.eq_def]
  rfl

theorem process_obj_ok {language maxDepth fields fieldName nested st nm stg sd st1}
    (hne : fields.isEmpty = false)
    (hgen : generate_nested_struct_name language fieldName st = (nm, stg))
    (hconv : convert_object_to_struct language maxDepth (.obj fields) nm stg = .ok (sd, st1)) :
    process_json_type_with_value language maxDepth (.obj fields) fieldName nested st =
      .ok ((.custom nm, false), nested ++ [sd], st1) := by
  rw [process_json_type_with_value.eq_def]
  simp only [hne, Bool.false_eq_true, if_false, hgen, hconv]

theorem process_obj_err {language maxDepth fields fieldName nested st nm stg e}
    (hne : fields.isEmpty = false)
    (hgen : generate_nested_struct_name language fieldName st = (nm, stg))
    (hconv : convert_object_to_struct language maxDepth (.obj fields) nm stg = .error e) :
    process_json_type_with_value language maxDepth (.obj fields) fieldName nested st = .error e := by
  rw [process_json_type_with_value.eq_def]
  simp only [hne, Bool.false_eq_true, if_false, hgen, hconv]

theorem analyze_elements_loop_nil {language maxDepth fieldName index elementTypes hasObjects hasPrimitives nested st} :
    analyze_elements_loop language maxDepth [] fieldName index elementTypes hasObjects
      hasPrimitives nested st =
      .ok (elementTypes, hasObjects, hasPrimitives, nested, st) := by
  rw [analyze_elements_loop.eq_def]

theorem analyze_elements_loop_cons_ok {language maxDepth element rest fieldName index
    elementTypes hasObjects hasPrimitives nested st t b nested1 st1 out}
    (hp : process_json_type_with_value language maxDepth element
      (fieldName ++ "_" ++ natRepr index) nested st = .ok ((t, b), nested1, st1))
    (hrest : analyze_elements_loop language maxDepth rest fieldName (index + 1)
      (bumpCount t elementTypes) (hasObjects || t.isCustomB)
      (hasPrimitives || !t.isCustomB) nested1 st1 = out) :
    analyze_elements_loop language maxDepth (element :: rest) fieldName index elementTypes
      hasObjects hasPrimitives nested st = out := by
  rw [analyze_elements_loop.eq_def]
  simp only [hp]
  exact hrest

theorem analyze_elements_loop_cons_err {language maxDepth element rest fieldName index
    elementTypes hasObjects hasPrimitives nested st e}
    (hp : process_json_type_with_value language maxDepth element
      (fieldName ++ "_" ++ natRepr index) nested st = .error e) :
    analyze_elements_loop language maxDepth (element :: rest) fieldName index elementTypes
      hasObjects hasPrimitives nested st = .error e := by
  rw [analyze_elements_loop.eq_def]
  simp only [hp]

theorem analyze_array_element_type_empty {language maxDepth fieldName nested st} :
    analyze_array_element_type language maxDepth [] fieldName nested st =
      .ok (.any, nested, st) := by
  rw [analyze_array_element_type.eq_def]
  rfl

theorem analyze_array_element_type_single {language maxDepth elems fieldName nested st
    elementTypes hasObjects hasPrimitives nested1 st1}
    (hne : elems.isEmpty = false)
    (hloop : analyze_elements_loop language maxDepth elems fieldName 0 [] false false nested st =
      .ok (elementTypes, hasObjects, hasPrimitives, nested1, st1))
    (hlen : elementTypes.length = 1) :
    analyze_array_element_type language maxDepth elems fieldName nested st =
      .ok ((elementTypes.headD (.any, 0)).1, nested1, st1) := by
  rw [analyze_array_element_type.eq_def]
  simp only [hne, Bool.false_eq_true, if_false, hloop, hlen, if_true, if_pos]

theorem analyze_array_element_type_mixed_any {language maxDepth elems fieldName nested st
    elementTypes nested1 st1}
    (hne : elems.isEmpty = false)
    (hloop : analyze_elements_loop language maxDepth elems fieldName 0 [] false false nested st =
      .ok (elementTypes, true, true, nested1, st1))
    (hlen : ¬ elementTypes.length = 1) :
    analyze_array_element_type language maxDepth elems fieldName nested st =
      .ok (.any, nested1, st1) := by
  rw [analyze_array_element_type.eq_def]
  simp only [hne, Bool.false_eq_true, if_false, hloop, hlen, Bool.and_self, if_true]

theorem analyze_array_element_type_objects {language maxDepth elems fieldName nested st
    elementTypes nested1 st1}
    (hne : elems.isEmpty = false)
    (hloop : analyze_elements_loop language maxDepth elems fieldName 0 [] false false nested st =
      .ok (elementTypes, true, false, nested1, st1))
    (hlen : ¬ elementTypes.length = 1) :
    analyze_array_element_type language maxDepth elems fieldName nested st =
      analyze_mixed_object_types language maxDepth elems fieldName nested1 st1 := by
  rw [analyze_array_element_type.eq_def]
  simp only [hne, Bool.false_eq_true, if_false, hloop, hlen, Bool.and_false, if_true]

theorem analyze_array_element_type_prims {language maxDepth elems fieldName nested st
    elementTypes hasPrimitives nested1 st1 t}
    (hne : elems.isEmpty = false)
    (hloop : analyze_elements_loop language maxDepth elems fieldName 0 [] false false nested st =
      .ok (elementTypes, false, hasPrimitives, nested1, st1))
    (hlen : ¬ elementTypes.length = 1)
    (hdet : determine_common_primitive_type elementTypes = .ok t) :
    analyze_array_element_type language maxDepth elems fieldName nested st =
      .ok (t, nested1, st1) := by
  rw [analyze_array_element_type.eq_def]
  simp only [hne, Bool.false_eq_true, if_false, hloop, hlen, Bool.false_and, hdet]

theorem analyze_mixed_object_types_none {language maxDepth elems fieldName nested st}
    (hc : collectCommonKeys elems = none) :
    analyze_mixed_object_types language maxDepth elems fieldName nested st =
      .ok (.any, nested, st) := by
  rw [analyze_mixed_object_types.eq_def]
  simp only [hc]

theorem analyze_mixed_object_types_nomerge {language maxDepth elems fieldName nested st common}
    (hc : collectCommonKeys elems = some common)
    (hcond : (!common.isEmpty && decide (common.length > (collectAllKeys elems).length / 2)) = false) :
    analyze_mixed_object_types language maxDepth elems fieldName nested st =
      .ok (.any, nested, st) := by
  rw [analyze_mixed_object_types.eq_def]
  simp only [hc, hcond, Bool.false_eq_true, if_false]

theorem analyze_mixed_object_types_merge {language maxDepth elems fieldName nested st common
    nm stg sd st1}
    (hc : collectCommonKeys elems = some common)
    (hcond : (!common.isEmpty && decide (common.length > (collectAllKeys elems).length / 2)) = true)
    (hgen : generate_nested_struct_name language (fieldName ++ "_item") st = (nm, stg))
    (hcu : create_unified_struct_from_array language maxDepth elems nm stg = .ok (sd, st1)) :
    analyze_mixed_object_types language maxDepth elems fieldName nested st =
      .ok (.custom nm, nested ++ [sd], st1) := by
  rw [analyze_mixed_object_types.eq_def]
  simp only [hc, hcond, if_true, hgen, hcu]

theorem create_unified_struct_from_array_ok {language maxDepth elems structName st
    unifiedFields nestedLocal st1}
    (hloop : create_unified_loop language maxDepth elems [] [] st =
      .ok (unifiedFields, nestedLocal, st1)) :
    create_unified_struct_from_array language maxDepth elems structName st =
      .ok ({ name := structName,
             fields := (sortEntries unifiedFields).map (fun p =>
               { json_name := p.1,
                 code_name := NameConverter.convert_field_name p.1 language,
                 field_type := p.2.1, is_optional := p.2.2.1, is_array := p.2.2.2,
                 comments := [], metadata := [] : FieldDefinition }),
             nested_structs := nestedLocal, comments := [], metadata := [] }, st1) := by
  rw [create_unified_struct_from_array.eq_def]
  simp only [hloop]

theorem create_unified_loop_nil {language maxDepth acc nested st} :
    create_unified_loop language maxDepth [] acc nested st = .ok (acc, nested, st) := by
  rw [create_unified_loop.eq_def]

theorem create_unified_loop_cons_obj {language maxDepth fs rest acc nested st acc1 nested1 st1 out}
    (hobj : create_unified_obj_loop language maxDepth (sortPairs fs) acc nested st =
      .ok (acc1, nested1, st1))
    (hrest : create_unified_loop language maxDepth rest acc1 nested1 st1 = out) :
    create_unified_loop language maxDepth (.obj fs :: rest) acc nested st = out := by
  rw [create_unified_loop.eq_def]
  simp only [hobj]
  exact hrest

theorem create_unified_obj_loop_nil {language maxDepth acc nested st} :
    create_unified_obj_loop language maxDepth [] acc nested st = .ok (acc, nested, st) := by
  rw [create_unified_obj_loop.eq_def]

theorem create_unified_obj_loop_cons_ok {language maxDepth key value rest acc nested st
    t b nested1 st1 out}
    (hp : process_json_type_with_value language maxDepth value key nested st =
      .ok ((t, b), nested1, st1))
    (hrest : create_unified_obj_loop language maxDepth rest
      (updateUnified key t (isNullB value) b acc) nested1 st1 = out) :
    create_unified_obj_loop language maxDepth ((key, value) :: rest) acc nested st = out := by
  rw [create_unified_obj_loop.eq_def]
  simp only [hp]
  exact hrest

/-- C4: inference is deterministic.  `convert_to_struct` resets the depth
counter, the name registry and the path before converting, so its result
(`StructDefinition` tree and final state alike) does not depend on the
converter's incoming mutable state; in particular two runs with the same
sample value, root name, language and max depth return identical trees,
also when the same converter instance is reused across calls. -/
theorem C4_deterministic (language : String) (maxDepth : Nat) (st₁ st₂ : ConvState)
    (v : Json) (structName : String) :
    convert_to_struct language maxDepth st₁ v structName =
      convert_to_struct language maxDepth st₂ v structName := by
  cases st₁
  cases st₂
  rfl

/-- C10: converting an empty JSON object at the root succeeds (whenever the
depth bound admits any object at all, i.e. `1 ≤ maxDepth`; the default is
20) and returns a `StructDefinition` carrying the requested root name, an
empty field list and no nested structs — no error and no `Any` fallback. -/
theorem C10_empty_root_object (language structName : String) (maxDepth : Nat)
    (st : ConvState) (h : 1 ≤ maxDepth) :
    convert_to_struct language maxDepth st (.obj []) structName =
      .ok ({ name := structName, fields := [], nested_structs := [],
             comments := [], metadata := [] }, ⟨[], [], 0⟩) := by
  have hdeep : ¬ (0 : Nat) ≥ maxDepth := by omega
  have hloop := @convert_fields_loop_nil language maxDepth [] (⟨[], [], 1⟩ : ConvState)
  have hobj : convert_object_to_struct language maxDepth (.obj []) structName ⟨[], [], 0⟩ =
      .ok ({ name := structName, fields := [], nested_structs := [],
             comments := [], metadata := [] }, ⟨[], [], 0⟩) :=
    convert_object_to_struct_obj_ok hdeep hloop
  cases st
  exact hobj

/-- Witness for C10 at the default configuration. -/
theorem C10_empty_root_object_witness :
    1 ≤ 20 ∧
    convert_to_struct "rust" 20 ⟨[], [], 0⟩ (.obj []) "Root" =
      .ok ({ name := "Root", fields := [], nested_structs := [],
             comments := [], metadata := [] }, ⟨[], [], 0⟩) :=
  ⟨by omega, C10_empty_root_object "rust" "Root" 20 ⟨[], [], 0⟩ (by omega)⟩

/-- C7: a field whose value is an empty object is typed `Any` (not a
zero-field record): `process_json_type_with_value` returns `(Any, not
array)` and adds no nested struct, and the resulting field is a plain
non-optional `Any` field. -/
theorem C7_empty_object_field_any (language : String) (maxDepth : Nat)
    (fieldName : String) (nested : List StructDefinition) (st : ConvState) :
    process_json_type_with_value language maxDepth (.obj []) fieldName nested st =
      .ok ((.any, false), nested, st) ∧
    convert_value_to_field language maxDepth fieldName (.obj []) nested st =
      .ok ({ json_name := fieldName,
             code_name := NameConverter.convert_field_name fieldName language,
             field_type := .any, is_optional := false, is_array := false,
             comments := [], metadata := [("json_name", fieldName)] }, nested, st) := by
  refine ⟨process_obj_empty, ?_⟩
  exact convert_value_to_field_ok process_obj_empty

/-! C2: behaviour of the depth bound on the canonical family of samples
nested to exactly `k` object levels. -/

/-- A sample whose objects are nested to exactly `k` levels. -/
def nestJson : Nat → Json
  | 0 => .int 1
  | k + 1 => .obj [("a", nestJson k)]

theorem nest_succeeds (language : String) (maxDepth : Nat) :
    ∀ k, 1 ≤ k → ∀ structName (st : ConvState), st.currentDepth + k ≤ maxDepth →
      ∃ out, convert_object_to_struct language maxDepth (nestJson k) structName st = .ok out := by
  intro k
  induction k with
  | zero => intro h; omega
  | succ n ih =>
    intro _ structName st hdepth
    have hdeep : ¬ st.currentDepth ≥ maxDepth := by omega
    cases n with
    | zero =>
      have ca : convert_value_to_field language maxDepth "a" (.int 1) []
          (⟨st.generatedNames, st.currentPath ++ ["a"], st.currentDepth + 1⟩ : ConvState) =
          .ok ({ json_name := "a",
                 code_name := NameConverter.convert_field_name "a" language,
                 field_type := .integer, is_optional := false, is_array := false,
                 comments := [], metadata := [("json_name", "a")] }, [],
               ⟨st.generatedNames, st.currentPath ++ ["a"], st.currentDepth + 1⟩) :=
        convert_value_to_field_ok process_int
      have l0 := @convert_fields_loop_nil language maxDepth []
        (⟨st.generatedNames, (st.currentPath ++ ["a"]).dropLast, st.currentDepth + 1⟩ : ConvState)
      have l1 : convert_fields_loop language maxDepth (sortPairs [("a", .int 1)]) []
          (⟨st.generatedNames, st.currentPath, st.currentDepth + 1⟩ : ConvState) =
          .ok ([{ json_name := "a",
                  code_name := NameConverter.convert_field_name "a" language,
                  field_type := .integer, is_optional := false, is_array := false,
                  comments := [], metadata := [("json_name", "a")] }], [],
               ⟨st.generatedNames, (st.currentPath ++ ["a"]).dropLast, st.currentDepth + 1⟩) :=
        convert_fields_loop_cons_ok ca l0
      exact ⟨_, convert_object_to_struct_obj_ok hdeep l1⟩
    | succ m =>
      have hgd : ((generate_nested_struct_name language "a"
          (⟨st.generatedNames, st.currentPath ++ ["a"], st.currentDepth + 1⟩ : ConvState)).2).currentDepth
          + (m + 1) ≤ maxDepth := by
        show st.currentDepth + 1 + (m + 1) ≤ maxDepth
        omega
      obtain ⟨out, hconv⟩ := ih (by omega)
        (generate_nested_struct_name language "a"
          (⟨st.generatedNames, st.currentPath ++ ["a"], st.currentDepth + 1⟩ : ConvState)).1
        (generate_nested_struct_name language "a"
          (⟨st.generatedNames, st.currentPath ++ ["a"], st.currentDepth + 1⟩ : ConvState)).2
        hgd
      have hp : process_json_type_with_value language maxDepth (.obj [("a", nestJson m)]) "a" []
          (⟨st.generatedNames, st.currentPath ++ ["a"], st.currentDepth + 1⟩ : ConvState) =
          .ok ((.custom (generate_nested_struct_name language "a"
                  (⟨st.generatedNames, st.currentPath ++ ["a"], st.currentDepth + 1⟩ : ConvState)).1,
                false), [] ++ [out.1], out.2) :=
        process_obj_ok rfl rfl hconv
      have ca := convert_value_to_field_ok hp
      have l0 := @convert_fields_loop_nil language maxDepth [out.1]
        (⟨out.2.generatedNames, out.2.currentPath.dropLast, out.2.currentDepth⟩ : ConvState)
      have l1 : convert_fields_loop language maxDepth (sortPairs [("a", nestJson (m + 1))]) []
          (⟨st.generatedNames, st.currentPath, st.currentDepth + 1⟩ : ConvState) =
          .ok ([{ json_name := "a",
                  code_name := NameConverter.convert_field_name "a" language,
                  field_type := .custom (generate_nested_struct_name language "a"
                    (⟨st.generatedNames, st.currentPath ++ ["a"], st.currentDepth + 1⟩ : ConvState)).1,
                  is_optional := false, is_array := false,
                  comments := [], metadata := [("json_name", "a")] }], [out.1],
               ⟨out.2.generatedNames, out.2.currentPath.dropLast, out.2.currentDepth⟩) :=
        convert_fields_loop_cons_ok ca l0
      exact ⟨_, convert_object_to_struct_obj_ok hdeep l1⟩

theorem nest_too_deep (language : String) (maxDepth : Nat) :
    ∀ k, 1 ≤ k → ∀ structName (st : ConvState), st.currentDepth + k = maxDepth + 1 →
      convert_object_to_struct language maxDepth (nestJson k) structName st =
        .error (.codegen (mkTooDeepMsg maxDepth
          (st.currentPath ++ List.replicate (maxDepth - st.currentDepth) "a"))) := by
  intro k
  induction k with
  | zero => intro h; omega
  | succ n ih =>
    intro _ structName st hdepth
    cases n with
    | zero =>
      have hst : st.currentDepth = maxDepth := by omega
      have h := @convert_object_to_struct_deep language maxDepth (nestJson 1) structName st
        (by omega)
      rw [h]
      have : maxDepth - st.currentDepth = 0 := by omega
      rw [this]
      simp
    | succ m =>
      have hdeep : ¬ st.currentDepth ≥ maxDepth := by omega
      have hgd : ((generate_nested_struct_name language "a"
          (⟨st.generatedNames, st.currentPath ++ ["a"], st.currentDepth + 1⟩ : ConvState)).2).currentDepth
          + (m + 1) = maxDepth + 1 := by
        show st.currentDepth + 1 + (m + 1) = maxDepth + 1
        omega
      have hconv := ih (by omega)
        (generate_nested_struct_name language "a"
          (⟨st.generatedNames, st.currentPath ++ ["a"], st.currentDepth + 1⟩ : ConvState)).1
        (generate_nested_struct_name language "a"
          (⟨st.generatedNames, st.currentPath ++ ["a"], st.currentDepth + 1⟩ : ConvState)).2
        hgd
      have hpath : (st.currentPath ++ ["a"]) ++
          List.replicate (maxDepth - (st.currentDepth + 1)) "a" =
          st.currentPath ++ List.replicate (maxDepth - st.currentDepth) "a" := by
        rw [List.append_assoc]
        congr 1
        have he : maxDepth - st.currentDepth = (maxDepth - (st.currentDepth + 1)) + 1 := by omega
        rw [he, List.replicate_succ]
        rfl
      have hconv2 : convert_object_to_struct language maxDepth (nestJson (m + 1))
          (generate_nested_struct_name language "a"
            (⟨st.generatedNames, st.currentPath ++ ["a"], st.currentDepth + 1⟩ : ConvState)).1
          (generate_nested_struct_name language "a"
            (⟨st.generatedNames, st.currentPath ++ ["a"], st.currentDepth + 1⟩ : ConvState)).2 =
          .error (.codegen (mkTooDeepMsg maxDepth
            (st.currentPath ++ List.replicate (maxDepth - st.currentDepth) "a"))) := by
        rw [hconv]
        show Except.error (J2sError.codegen (mkTooDeepMsg maxDepth
          ((st.currentPath ++ ["a"]) ++ List.replicate (maxDepth - (st.currentDepth + 1)) "a"))) = _
        rw [hpath]
      have hp : process_json_type_with_value language maxDepth (.obj [("a", nestJson m)]) "a" []
          (⟨st.generatedNames, st.currentPath ++ ["a"], st.currentDepth + 1⟩ : ConvState) =
          .error (.codegen (mkTooDeepMsg maxDepth
            (st.currentPath ++ List.replicate (maxDepth - st.currentDepth) "a"))) :=
        process_obj_err rfl rfl hconv2
      have ca := convert_value_to_field_err hp
      have l1 : convert_fields_loop language maxDepth (sortPairs [("a", nestJson (m + 1))]) []
          (⟨st.generatedNames, st.currentPath, st.currentDepth + 1⟩ : ConvState) =
          .error (.codegen (mkTooDeepMsg maxDepth
            (st.currentPath ++ List.replicate (maxDepth - st.currentDepth) "a"))) :=
        convert_fields_loop_cons_err1 ca
      exact convert_object_to_struct_obj_err hdeep l1

/-- C2: for every max-depth setting `d ≥ 1`, inference on the sample nested
to exactly `d` object levels succeeds, while the sample nested to exactly
`d + 1` levels fails with the maximum-recursion-depth error, whose message
carries the depth bound `d` and the key path `a.a.…` (`d` segments) as a
hint (this also holds for `d = 0`, where the failing path hint is empty). -/
theorem C2_max_depth_boundary (d : Nat) (language structName : String) (st : ConvState) :
    (1 ≤ d → ∃ out, convert_to_struct language d st (nestJson d) structName = .ok out) ∧
    convert_to_struct language d st (nestJson (d + 1)) structName =
      .error (.codegen (mkTooDeepMsg d (List.replicate d "a"))) := by
  cases st
  constructor
  · intro h1
    exact nest_succeeds language d d h1 structName ⟨[], [], 0⟩ (show (0 : Nat) + d ≤ d by omega)
  · have h := nest_too_deep language d (d + 1) (by omega) structName ⟨[], [], 0⟩
      (show (0 : Nat) + (d + 1) = d + 1 by omega)
    simpa using h

/-- Witness for C2 at `d = 1`. -/
theorem C2_max_depth_boundary_witness :
    (1 ≤ 1 ∧ ∃ out, convert_to_struct "go" 1 ⟨[], [], 0⟩ (nestJson 1) "Root" = .ok out) ∧
    convert_to_struct "go" 1 ⟨[], [], 0⟩ (nestJson 2) "Root" =
      .error (.codegen (mkTooDeepMsg 1 (List.replicate 1 "a"))) :=
  ⟨⟨by omega, (C2_max_depth_boundary 1 "go" "Root" ⟨[], [], 0⟩).1 (by omega)⟩,
   (C2_max_depth_boundary 1 "go" "Root" ⟨[], [], 0⟩).2⟩

/-! C5: keyword safety of the identifier sanitizer. -/

theorem sanitize_identifier_spec (input : String) (kw : List String) :
    NameConverter.sanitize_identifier input kw = "field" ∨
    (∃ l : List Char, l ≠ [] ∧ NameConverter.sanitize_identifier input kw = String.mk l ∧
      (kw.contains (String.mk (l.map Char.toLower)) = false ∨ l.getLast? = some '_')) := by
  simp only [NameConverter.sanitize_identifier]
  by_cases h0 : input.data.isEmpty
  · rw [if_pos h0]
    left
    rfl
  · rw [if_neg h0]
    by_cases hkw : kw.contains (String.mk
        ((NameConverter.trimEndUnderscores (NameConverter.collapse_underscores
          (NameConverter.sanitizeCore input.data))).map Char.toLower)) = true
    · rw [if_pos hkw]
      by_cases hall : ((NameConverter.trimEndUnderscores (NameConverter.collapse_underscores
          (NameConverter.sanitizeCore input.data)) ++ ['_']).isEmpty ||
          (NameConverter.trimEndUnderscores (NameConverter.collapse_underscores
            (NameConverter.sanitizeCore input.data)) ++ ['_']).all (fun c => c == '_')) = true
      · rw [if_pos hall]
        left
        rfl
      · rw [if_neg hall]
        right
        refine ⟨_, ?_, rfl, Or.inr ?_⟩
        · simp
        · exact List.getLast?_concat _
    · rw [if_neg hkw]
      by_cases hall : ((NameConverter.trimEndUnderscores (NameConverter.collapse_underscores
          (NameConverter.sanitizeCore input.data))).isEmpty ||
          (NameConverter.trimEndUnderscores (NameConverter.collapse_underscores
            (NameConverter.sanitizeCore input.data))).all (fun c => c == '_')) = true
      · rw [if_pos hall]
        left
        rfl
      · rw [if_neg hall]
        right
        refine ⟨_, ?_, rfl, Or.inl (by simpa using hkw)⟩
        intro hnil
        rw [hnil] at hall
        simp at hall

theorem sanitize_identifier_ne_empty (input : String) (kw : List String) :
    NameConverter.sanitize_identifier input kw ≠ "" := by
  rcases sanitize_identifier_spec input kw with h | ⟨l, hne, heq, _⟩
  · rw [h]
    decide
  · rw [heq]
    intro hcontra
    exact hne (congrArg String.data hcontra)

theorem sanitize_identifier_mem_kw (input : String) (kw : List String)
    (hf : ¬ "field" ∈ kw)
    (hu : ∀ w ∈ kw, w.data.getLast? ≠ some '_')
    (hmem : NameConverter.sanitize_identifier input kw ∈ kw) :
    kw.contains (String.mk
      ((NameConverter.sanitize_identifier input kw).data.map Char.toLower)) = false := by
  rcases sanitize_identifier_spec input kw with h | ⟨l, hne, heq, hc | hlast⟩
  · rw [h] at hmem
    exact absurd hmem hf
  · rw [heq]
    exact hc
  · rw [heq] at hmem
    have := hu _ hmem
    simp only at this
    exact absurd hlast this

theorem sanitize_identifier_not_kw (input : String) (kw : List String)
    (hf : ¬ "field" ∈ kw)
    (hu : ∀ w ∈ kw, w.data.getLast? ≠ some '_')
    (hlc : ∀ w ∈ kw, String.mk (w.data.map Char.toLower) ∈ kw) :
    NameConverter.sanitize_identifier input kw ∉ kw := by
  intro hmem
  have h1 := sanitize_identifier_mem_kw input kw hf hu hmem
  have h2 := hlc _ hmem
  have h3 : String.mk ((NameConverter.sanitize_identifier input kw).data.map Char.toLower) ∉ kw := by
    simpa using h1
  exact h3 h2

/-- C5 (amended): for every raw name, the sanitized identifier is
non-empty; the keyword check compares the lower-cased candidate against
the stored reserved-word set and appends a trailing underscore on a
match, which keeps the result outside the reserved-word set for go, rust
and typescript (whose stored sets are closed under lower-casing); for
python, whose set stores `False`, `None`, `True` capitalized, exactly
those three reserved words can still be produced verbatim. -/
theorem C5_sanitizer_keyword_safety :
    (∀ input language, language = "go" ∨ language = "rust" ∨ language = "typescript" →
      NameConverter.sanitize_identifier_for_language input language ≠ "" ∧
      NameConverter.sanitize_identifier_for_language input language ∉
        NameConverter.get_reserved_keywords language) ∧
    (∀ input, NameConverter.sanitize_identifier_for_language input "python" ≠ "" ∧
      (NameConverter.sanitize_identifier_for_language input "python" ∈
          NameConverter.get_reserved_keywords "python" →
        NameConverter.sanitize_identifier_for_language input "python" ∈
          (["False", "None", "True"] : List String))) := by
  constructor
  · intro input language hl
    refine ⟨sanitize_identifier_ne_empty _ _, ?_⟩
    rcases hl with h | h | h <;> subst h
    · exact sanitize_identifier_not_kw _ _ (by decide) (by decide) (by decide)
    · exact sanitize_identifier_not_kw _ _ (by decide) (by decide) (by decide)
    · exact sanitize_identifier_not_kw _ _ (by decide) (by decide) (by decide)
  · intro input
    refine ⟨sanitize_identifier_ne_empty _ _, ?_⟩
    intro hmem
    have h1 := sanitize_identifier_mem_kw input
      (NameConverter.get_reserved_keywords "python") (by decide) (by decide) hmem
    have key : ∀ w ∈ NameConverter.get_reserved_keywords "python",
        (NameConverter.get_reserved_keywords "python").contains
          (String.mk (w.data.map Char.toLower)) = false →
        w ∈ (["False", "None", "True"] : List String) := by decide
    exact key _ hmem h1

/-- C5 counterexample: the type name produced for the raw name `False` in
python is `False` itself, which is in the python reserved-word set — the
keyword check lowercases the candidate but the set stores `False`
capitalized, so no trailing underscore is appended. -/
theorem C5_counterexample :
    NameConverter.convert_type_name "False" "python" = "False" ∧
    "False" ∈ NameConverter.get_reserved_keywords "python" := ⟨by decide, by decide⟩

/-- Witness for C5 at the raw name `type` and language go. -/
theorem C5_sanitizer_keyword_safety_witness :
    ("go" = "go" ∨ "go" = "rust" ∨ "go" = "typescript") ∧
    NameConverter.sanitize_identifier_for_language "type" "go" ≠ "" ∧
    NameConverter.sanitize_identifier_for_language "type" "go" ∉
      NameConverter.get_reserved_keywords "go" :=
  ⟨Or.inl rfl,
   (C5_sanitizer_keyword_safety.1 "type" "go" (Or.inl rfl)).1,
   (C5_sanitizer_keyword_safety.1 "type" "go" (Or.inl rfl)).2⟩

/-! C6: arrays mixing exactly the Integer and Number kinds unify to Number. -/

def isNumericB : Json → Bool
  | .int _ => true
  | .float _ => true
  | _ => false

def isIntB : Json → Bool
  | .int _ => true
  | _ => false

def isFloatB : Json → Bool
  | .float _ => true
  | _ => false

/-- The primitive kind assigned to a numeric element. -/
def numKind : Json → FieldType
  | .int _ => .integer
  | _ => .number

theorem bumpCount_keys (t : FieldType) (l : List (FieldType × Nat)) :
    (bumpCount t l).map Prod.fst =
      if t ∈ l.map Prod.fst then l.map Prod.fst else l.map Prod.fst ++ [t] := by
  induction l with
  | nil => simp [bumpCount]
  | cons p rest ih =>
    obtain ⟨u, n⟩ := p
    by_cases h : u = t
    · subst h
      simp [bumpCount]
    · simp only [bumpCount, if_neg h, List.map_cons, ih]
      have : (t ∈ u :: rest.map Prod.fst) = (t ∈ rest.map Prod.fst) := by
        simp [List.mem_cons, Ne.symm h]
      by_cases hm : t ∈ rest.map Prod.fst
      · simp [hm, Ne.symm h]
      · simp [hm, Ne.symm h]

theorem analyze_elements_loop_numeric (language : String) (maxDepth : Nat) :
    ∀ (elems : List Json) fieldName index acc ho hp nested st,
      elems.all isNumericB = true →
      analyze_elements_loop language maxDepth elems fieldName index acc ho hp nested st =
        .ok (elems.foldl (fun a e => bumpCount (numKind e) a) acc, ho,
             hp || !elems.isEmpty, nested, st) := by
  intro elems
  induction elems with
  | nil =>
    intro fieldName index acc ho hp nested st _
    simpa using analyze_elements_loop_nil
  | cons e rest ih =>
    intro fieldName index acc ho hp nested st hall
    simp only [List.all_cons, Bool.and_eq_true] at hall
    cases e with
    | int n =>
      rw [analyze_elements_loop.eq_def]
      simp only [process_int, FieldType.isCustomB, Bool.or_false, Bool.not_false, Bool.or_true,
        List.foldl_cons, numKind, List.isEmpty_cons]
      rw [ih fieldName (index + 1) (bumpCount FieldType.integer acc) ho true nested st hall.2]
      rfl
    | float n =>
      rw [analyze_elements_loop.eq_def]
      simp only [process_float, FieldType.isCustomB, Bool.or_false, Bool.not_false, Bool.or_true,
        List.foldl_cons, numKind, List.isEmpty_cons]
      rw [ih fieldName (index + 1) (bumpCount FieldType.number acc) ho true nested st hall.2]
      rfl
    | null => simp [isNumericB] at hall
    | bool b => simp [isNumericB] at hall
    | str s => simp [isNumericB] at hall
    | arr l => simp [isNumericB] at hall
    | obj l => simp [isNumericB] at hall

theorem foldBump_mem_keys (f : Json → FieldType) :
    ∀ (elems : List Json) acc t,
      t ∈ ((elems.foldl (fun a e => bumpCount (f e) a) acc).map Prod.fst) ↔
        t ∈ acc.map Prod.fst ∨ ∃ e ∈ elems, f e = t := by
  intro elems
  induction elems with
  | nil => intro acc t; simp
  | cons e rest ih =>
    intro acc t
    simp only [List.foldl_cons, ih, bumpCount_keys]
    by_cases hm : f e ∈ acc.map Prod.fst
    · simp only [if_pos hm]
      constructor
      · rintro (h | h)
        · exact Or.inl h
        · obtain ⟨e', he', hfe⟩ := h
          exact Or.inr ⟨e', List.mem_cons_of_mem _ he', hfe⟩
      · rintro (h | ⟨e', he', hfe⟩)
        · exact Or.inl h
        · rcases List.mem_cons.mp he' with rfl | he'
          · subst hfe
            exact Or.inl hm
          · exact Or.inr ⟨e', he', hfe⟩
    · simp only [if_neg hm, List.mem_append, List.mem_singleton]
      constructor
      · rintro ((h | h) | h)
        · exact Or.inl h
        · subst h
          exact Or.inr ⟨e, List.mem_cons_self _ _, rfl⟩
        · obtain ⟨e', he', hfe⟩ := h
          exact Or.inr ⟨e', List.mem_cons_of_mem _ he', hfe⟩
      · rintro (h | ⟨e', he', hfe⟩)
        · exact Or.inl (Or.inl h)
        · rcases List.mem_cons.mp he' with rfl | he'
          · exact Or.inl (Or.inr hfe.symm)
          · exact Or.inr ⟨e', he', hfe⟩

theorem foldBump_nodup (f : Json → FieldType) :
    ∀ (elems : List Json) acc, (acc.map Prod.fst).Nodup →
      ((elems.foldl (fun a e => bumpCount (f e) a) acc).map Prod.fst).Nodup := by
  intro elems
  induction elems with
  | nil => intro acc h; simpa using h
  | cons e rest ih =>
    intro acc h
    simp only [List.foldl_cons]
    apply ih
    rw [bumpCount_keys]
    by_cases hm : f e ∈ acc.map Prod.fst
    · simpa [hm] using h
    · simp [hm, List.nodup_append, h]

theorem two_kinds_char (l : List FieldType) (hnd : l.Nodup)
    (hsub : ∀ x ∈ l, x = .integer ∨ x = .number)
    (hi : FieldType.integer ∈ l) (hn : FieldType.number ∈ l) :
    l = [.integer, .number] ∨ l = [.number, .integer] := by
  match l, hnd with
  | [], _ => simp at hi
  | [x], _ =>
    simp only [List.mem_singleton] at hi hn
    rw [← hi] at hn
    simp at hn
  | x :: y :: rest, hnd =>
    have hx := hsub x (by simp)
    have hy := hsub y (by simp)
    have hxy : x ≠ y := by
      intro h
      rw [h] at hnd
      simp at hnd
    have hrest : rest = [] := by
      cases rest with
      | nil => rfl
      | cons z rest2 =>
        exfalso
        have hz := hsub z (by simp)
        rw [List.nodup_cons, List.nodup_cons] at hnd
        obtain ⟨hx_nin, hy_nin, _⟩ := hnd
        have hzx : z ≠ x := by
          intro h
          exact hx_nin (by rw [← h]; exact List.mem_cons_of_mem _ (List.mem_cons_self _ _))
        have hzy : z ≠ y := by
          intro h
          exact hy_nin (by rw [← h]; exact List.mem_cons_self _ _)
        rcases hx with rfl | rfl <;> rcases hy with rfl | rfl <;>
          rcases hz with rfl | rfl <;> simp_all
    subst hrest
    rcases hx with rfl | rfl <;> rcases hy with rfl | rfl <;> simp_all

theorem determine_of_two_kinds (typeCounts : List (FieldType × Nat))
    (h : typeCounts.map Prod.fst = [.integer, .number] ∨
         typeCounts.map Prod.fst = [.number, .integer]) :
    determine_common_primitive_type typeCounts = .ok .number := by
  rcases h with h | h <;> (simp only [determine_common_primitive_type]; rw [h]; rfl)

/-- C6: for every non-empty array whose elements mix exactly the Integer
and Number primitive kinds (both present, nothing else), array
unification yields the element type Number, leaving the nested-struct
list and the converter state untouched. -/
theorem C6_integer_number_widening (language : String) (maxDepth : Nat)
    (elems : List Json) (fieldName : String) (nested : List StructDefinition)
    (st : ConvState)
    (hall : elems.all isNumericB = true)
    (hint : elems.any isIntB = true)
    (hfloat : elems.any isFloatB = true) :
    analyze_array_element_type language maxDepth elems fieldName nested st =
      .ok (.number, nested, st) := by
  have hne : elems.isEmpty = false := by
    cases elems with
    | nil => simp at hint
    | cons e rest => rfl
  have hloop := analyze_elements_loop_numeric language maxDepth elems fieldName 0 []
    false false nested st hall
  rw [hne] at hloop
  have hkeys : (elems.foldl (fun a e => bumpCount (numKind e) a) []).map Prod.fst =
      [.integer, .number] ∨
      (elems.foldl (fun a e => bumpCount (numKind e) a) []).map Prod.fst =
      [.number, .integer] := by
    apply two_kinds_char
    · exact foldBump_nodup numKind elems [] (by simp)
    · intro x hx
      rw [foldBump_mem_keys] at hx
      rcases hx with h | ⟨e, he, hfe⟩
      · simp at h
      · have := hall
        rw [List.all_eq_true] at this
        have hnum := this e he
        cases e <;> simp [isNumericB] at hnum <;> simp [numKind] at hfe <;>
          [exact Or.inl hfe.symm; exact Or.inr hfe.symm]
    · rw [foldBump_mem_keys]
      right
      rw [List.any_eq_true] at hint
      obtain ⟨e, he, hie⟩ := hint
      cases e <;> simp [isIntB] at hie
      exact ⟨_, he, rfl⟩
    · rw [foldBump_mem_keys]
      right
      rw [List.any_eq_true] at hfloat
      obtain ⟨e, he, hfe⟩ := hfloat
      cases e <;> simp [isFloatB] at hfe
      exact ⟨_, he, rfl⟩
  have hlen : ¬ (elems.foldl (fun a e => bumpCount (numKind e) a) []).length = 1 := by
    have : ((elems.foldl (fun a e => bumpCount (numKind e) a) []).map Prod.fst).length = 2 := by
      rcases hkeys with h | h <;> rw [h] <;> rfl
    rw [List.length_map] at this
    omega
  exact analyze_array_element_type_prims hne hloop hlen (determine_of_two_kinds _ hkeys)

/-- Witness for C6 on the array `[1, 2.5]`. -/
theorem C6_integer_number_widening_witness :
    ([Json.int 1, Json.float 5].all isNumericB = true ∧
     [Json.int 1, Json.float 5].any isIntB = true ∧
     [Json.int 1, Json.float 5].any isFloatB = true) ∧
    analyze_array_element_type "go" 20 [Json.int 1, Json.float 5] "a" [] ⟨[], [], 0⟩ =
      .ok (.number, [], ⟨[], [], 0⟩) :=
  ⟨⟨by decide, by decide, by decide⟩,
   C6_integer_number_widening "go" 20 [Json.int 1, Json.float 5] "a" [] ⟨[], [], 0⟩
     (by decide) (by decide) (by decide)⟩

/-! Tree predicates over the produced `StructDefinition`s. -/

mutual

/-- All record-type names in a struct tree, root first. -/
def structNames : StructDefinition → List String
  | ⟨n, _, nested, _, _⟩ => n :: structNamesList nested

def structNamesList : List StructDefinition → List String
  | [] => []
  | s :: rest => structNames s ++ structNamesList rest

end

/-- Adjacent fields are in ascending `source_key` order. -/
def fieldsSortedB : List FieldDefinition → Bool
  | [] => true
  | [_] => true
  | f :: g :: rest => strLeB f.json_name g.json_name && fieldsSortedB (g :: rest)

mutual

/-- Every record in the tree has its field list sorted by original key. -/
def allFieldsSortedB : StructDefinition → Bool
  | ⟨_, flds, nested, _, _⟩ => fieldsSortedB flds && allFieldsSortedListB nested

def allFieldsSortedListB : List StructDefinition → Bool
  | [] => true
  | s :: rest => allFieldsSortedB s && allFieldsSortedListB rest

end

mutual

/-- Every `Custom(name)` field of every record in the tree names a record
present in that record's nested-struct list, directly or transitively. -/
def refsClosedB : StructDefinition → Bool
  | ⟨_, flds, nested, _, _⟩ =>
    (flds.all (fun f => match f.field_type with
      | .custom nm => (structNamesList nested).contains nm
      | _ => true)) && refsClosedListB nested

def refsClosedListB : List StructDefinition → Bool
  | [] => true
  | s :: rest => refsClosedB s && refsClosedListB rest

end

/-- Well-formedness of one produced record: fields sorted by source key,
custom field references resolved by a direct child, recursively. -/
inductive StructOk : StructDefinition → Prop where
  | mk : ∀ s : StructDefinition,
      fieldsSortedB s.fields = true →
      (∀ f ∈ s.fields, ∀ nm, f.field_type = FieldType.custom nm →
        nm ∈ s.nested_structs.map StructDefinition.name) →
      (∀ t ∈ s.nested_structs, StructOk t) →
      StructOk s

theorem structNamesList_append (a b : List StructDefinition) :
    structNamesList (a ++ b) = structNamesList a ++ structNamesList b := by
  induction a with
  | nil => simp [structNamesList]
  | cons s rest ih => simp [structNamesList, ih]

theorem name_mem_structNamesList {nm : String} {l : List StructDefinition}
    (h : nm ∈ l.map StructDefinition.name) : nm ∈ structNamesList l := by
  induction l with
  | nil => simp at h
  | cons s rest ih =>
    rw [structNamesList]
    rcases List.mem_cons.mp h with h | h
    · obtain ⟨n, flds, nested, cs, md⟩ := s
      rw [structNames]
      subst h
      simp
    · exact List.mem_append_right _ (ih h)

theorem allFieldsSortedListB_eq (l : List StructDefinition) :
    allFieldsSortedListB l = l.all allFieldsSortedB := by
  induction l with
  | nil => rfl
  | cons s rest ih => simp [allFieldsSortedListB, ih]

theorem refsClosedListB_eq (l : List StructDefinition) :
    refsClosedListB l = l.all refsClosedB := by
  induction l with
  | nil => rfl
  | cons s rest ih => simp [refsClosedListB, ih]

theorem structOk_allFieldsSorted {s : StructDefinition} (h : StructOk s) :
    allFieldsSortedB s = true := by
  induction h with
  | mk s hs hr hc ih =>
    obtain ⟨n, flds, nested, cs, md⟩ := s
    rw [allFieldsSortedB, allFieldsSortedListB_eq]
    simp only [Bool.and_eq_true, List.all_eq_true]
    exact ⟨hs, ih⟩

theorem structOk_refsClosed {s : StructDefinition} (h : StructOk s) :
    refsClosedB s = true := by
  induction h with
  | mk s hs hr hc ih =>
    obtain ⟨n, flds, nested, cs, md⟩ := s
    rw [refsClosedB, refsClosedListB_eq]
    simp only [Bool.and_eq_true, List.all_eq_true]
    constructor
    · intro f hf
      match hft : f.field_type with
      | .custom nm =>
        have := hr f hf nm hft
        simpa using name_mem_structNamesList this
      | .string => rfl
      | .integer => rfl
      | .number => rfl
      | .boolean => rfl
      | .any => rfl
    · exact ih

/-! Freshness of `generate_nested_struct_name` against the registry. -/

theorem freshLoop_mem_of : ∀ (fuel : Nat) (conv : String) (g : List String) (f : String)
    (c : Nat), freshLoop conv g f c (fuel + 1) ∈ g →
    f ∈ g ∧ ∀ i < fuel, conv ++ natRepr (c + i) ∈ g := by
  intro fuel
  induction fuel with
  | zero =>
    intro conv g f c h
    have h1 : (if g.contains f then freshLoop conv g (conv ++ natRepr c) (c + 1) 0 else f) ∈ g := h
    by_cases hf : g.contains f
    · rw [if_pos hf] at h1
      refine ⟨by simpa using hf, ?_⟩
      intro i hi
      omega
    · rw [if_neg hf] at h1
      refine ⟨h1, ?_⟩
      intro i hi
      omega
  | succ fuel ih =>
    intro conv g f c h
    have h1 : (if g.contains f then
        freshLoop conv g (conv ++ natRepr c) (c + 1) (fuel + 1) else f) ∈ g := h
    by_cases hf : g.contains f
    · rw [if_pos hf] at h1
      obtain ⟨h2, h3⟩ := ih conv g (conv ++ natRepr c) (c + 1) h1
      refine ⟨by simpa using hf, ?_⟩
      intro i hi
      cases i with
      | zero => simpa using h2
      | succ j =>
        have := h3 j (by omega)
        have harg : c + 1 + j = c + (j + 1) := by omega
        rwa [harg] at this
    · rw [if_neg hf] at h1
      refine ⟨h1, ?_⟩
      intro i hi
      exact absurd h1 (by simpa using hf)

theorem string_append_natRepr_ne (conv : String) (k : Nat) :
    conv ≠ conv ++ natRepr k := by
  intro h
  have hd : conv.data = conv.data ++ (natRepr k).data := by
    have := congrArg String.data h
    simpa [String.data_append] using this
  have hlen := congrArg List.length hd
  simp only [List.length_append] at hlen
  have : (natRepr k).data = [] := List.eq_nil_of_length_eq_zero (by omega)
  exact natRepr_ne_empty k (by
    cases hk : natRepr k
    simp only [hk] at this
    exact String.ext this)

theorem string_append_natRepr_inj (conv : String) {i j : Nat}
    (h : conv ++ natRepr i = conv ++ natRepr j) : i = j := by
  have hd := congrArg String.data h
  simp only [String.data_append] at hd
  have := List.append_cancel_left hd
  exact natRepr_inj (String.ext this)

theorem freshLoop_fresh (conv : String) (g : List String) :
    freshLoop conv g conv 1 (g.length + 1) ∉ g := by
  intro hmem
  obtain ⟨hconv, hall⟩ := freshLoop_mem_of g.length conv g conv 1 hmem
  have hL : (conv :: (List.range g.length).map (fun i => conv ++ natRepr (1 + i))).Nodup := by
    rw [List.nodup_cons]
    refine ⟨?_, ?_⟩
    · intro hx
      simp only [List.mem_map, List.mem_range] at hx
      obtain ⟨i, hilt, hi⟩ := hx
      exact string_append_natRepr_ne conv (1 + i) hi.symm
    · refine List.Nodup.map ?_ (List.nodup_range _)
      intro i j hij
      have := string_append_natRepr_inj conv hij
      omega
  have hsub : (conv :: (List.range g.length).map (fun i => conv ++ natRepr (1 + i))) ⊆ g := by
    intro x hx
    rcases List.mem_cons.mp hx with rfl | hx
    · exact hconv
    · simp only [List.mem_map, List.mem_range] at hx
      obtain ⟨i, hi, rfl⟩ := hx
      exact hall i hi
  have hlen := (hL.subperm hsub).length_le
  simp at hlen

theorem generate_fresh (language fieldName : String) (st : ConvState) :
    (generate_nested_struct_name language fieldName st).1 ∉ st.generatedNames := by
  exact freshLoop_fresh _ _

theorem generate_names (language fieldName : String) (st : ConvState) :
    (generate_nested_struct_name language fieldName st).2.generatedNames =
      (generate_nested_struct_name language fieldName st).1 :: st.generatedNames := rfl

/-- Relation between the registry before (`g`) and after (`g'`) a
converter call that appended the structs `Δ` to its caller's nested list:
the registry only grows, the tree names of `Δ` are mutually distinct,
each was newly allocated in the registry, and each struct is well formed. -/
def GoodOut (g g' : List String) (Δ : List StructDefinition) : Prop :=
  g ⊆ g' ∧ (structNamesList Δ).Nodup ∧
  (∀ nm ∈ structNamesList Δ, nm ∈ g' ∧ nm ∉ g) ∧
  ∀ s ∈ Δ, StructOk s

theorem goodOut_nil (g : List String) : GoodOut g g [] := by
  refine ⟨fun x hx => hx, ?_, ?_, ?_⟩
  · simp [structNamesList]
  · intro nm hnm
    simp [structNamesList] at hnm
  · intro s hs
    simp at hs

theorem goodOut_grow {g g₁ g' : List String} {Δ : List StructDefinition}
    (hsub : g ⊆ g₁) (h : GoodOut g₁ g' Δ) (hback : ∀ nm ∈ structNamesList Δ, nm ∉ g) :
    GoodOut g g' Δ := by
  obtain ⟨h1, h2, h3, h4⟩ := h
  exact ⟨fun x hx => h1 (hsub hx), h2, fun nm hnm => ⟨(h3 nm hnm).1, hback nm hnm⟩, h4⟩

theorem goodOut_trans {g g₁ g₂ : List String} {Δ₁ Δ₂ : List StructDefinition}
    (ha : GoodOut g g₁ Δ₁) (hb : GoodOut g₁ g₂ Δ₂) : GoodOut g g₂ (Δ₁ ++ Δ₂) := by
  obtain ⟨ha1, ha2, ha3, ha4⟩ := ha
  obtain ⟨hb1, hb2, hb3, hb4⟩ := hb
  refine ⟨fun x hx => hb1 (ha1 hx), ?_, ?_, ?_⟩
  · rw [structNamesList_append]
    rw [List.nodup_append]
    refine ⟨ha2, hb2, ?_⟩
    intro nm hnm hnm2
    exact (hb3 nm hnm2).2 ((ha3 nm hnm).1)
  · intro nm hnm
    rw [structNamesList_append, List.mem_append] at hnm
    rcases hnm with h | h
    · exact ⟨hb1 (ha3 nm h).1, (ha3 nm h).2⟩
    · exact ⟨(hb3 nm h).1, fun hc => (hb3 nm h).2 (ha1 hc)⟩
  · intro s hs
    rcases List.mem_append.mp hs with h | h
    · exact ha4 s h
    · exact hb4 s h

/-- The pattern of `process_json_type_with_value`'s object branch and of
`analyze_mixed_object_types`' merge branch: allocate a fresh name, build a
struct carrying it whose own new names are fresh against the grown
registry, and push that struct. -/
theorem goodOut_push {g g₂ : List String} {nm : String} {sd : StructDefinition}
    (hfresh : nm ∉ g) (hok : StructOk sd) (hname : sd.name = nm)
    (hg : GoodOut (nm :: g) g₂ sd.nested_structs) : GoodOut g g₂ [sd] := by
  obtain ⟨h1, h2, h3, h4⟩ := hg
  have hnames : structNamesList [sd] = nm :: structNamesList sd.nested_structs := by
    obtain ⟨n, flds, nested, cs, md⟩ := sd
    simp only at hname
    subst hname
    simp [structNamesList, structNames]
  refine ⟨fun x hx => h1 (List.mem_cons_of_mem _ hx), ?_, ?_, ?_⟩
  · rw [hnames, List.nodup_cons]
    refine ⟨fun hc => (h3 nm hc).2 (List.mem_cons_self _ _), h2⟩
  · rw [hnames]
    intro x hx
    rcases List.mem_cons.mp hx with rfl | hx
    · exact ⟨h1 (List.mem_cons_self _ _), hfresh⟩
    · refine ⟨(h3 x hx).1, fun hc => (h3 x hx).2 (List.mem_cons_of_mem _ hc)⟩
  · intro s hs
    rcases List.mem_cons.mp hs with rfl | hs
    · exact hok
    · simp at hs

theorem fieldsSortedB_of_pairwise : ∀ flds : List FieldDefinition,
    List.Pairwise (fun f g => strLeB f.json_name g.json_name = true) flds →
    fieldsSortedB flds = true := by
  intro flds
  induction flds with
  | nil => intro _; rfl
  | cons f rest ih =>
    intro h
    rw [List.pairwise_cons] at h
    cases rest with
    | nil => rfl
    | cons g rest2 =>
      rw [fieldsSortedB]
      simp only [Bool.and_eq_true]
      exact ⟨h.1 g (List.mem_cons_self _ _), ih h.2⟩

theorem fieldsSortedB_of_key_sorted {α : Type} (key : α → String) :
    ∀ (l : List α) (flds : List FieldDefinition),
    flds.map FieldDefinition.json_name = l.map key →
    List.Pairwise (fun a b => strLeB (key a) (key b) = true) l →
    fieldsSortedB flds = true := by
  intro l flds hmap hs
  have h1 : List.Pairwise (fun a b : String => strLeB a b = true) (l.map key) :=
    (List.pairwise_map).mpr hs
  rw [← hmap] at h1
  exact fieldsSortedB_of_pairwise flds ((List.pairwise_map).mp h1)

theorem maxFold_cases : ∀ (l : List (FieldType × Nat)) (acc : Option (FieldType × Nat)),
    l.foldl maxStep acc = acc ∨ ∃ p ∈ l, l.foldl maxStep acc = some p := by
  intro l
  induction l with
  | nil => intro acc; left; rfl
  | cons q rest ih =>
    intro acc
    simp only [List.foldl_cons]
    cases acc with
    | none =>
      have hstep : maxStep none q = some q := rfl
      rw [hstep]
      rcases ih (some q) with h | ⟨p, hp, h⟩
      · right
        exact ⟨q, List.mem_cons_self _ _, h⟩
      · right
        exact ⟨p, List.mem_cons_of_mem _ hp, h⟩
    | some r =>
      have hstep : maxStep (some r) q = if q.2 ≥ r.2 then some q else some r := rfl
      rw [hstep]
      by_cases hge : q.2 ≥ r.2
      · rw [if_pos hge]
        rcases ih (some q) with h | ⟨p, hp, h⟩
        · right
          exact ⟨q, List.mem_cons_self _ _, h⟩
        · right
          exact ⟨p, List.mem_cons_of_mem _ hp, h⟩
      · rw [if_neg hge]
        rcases ih (some r) with h | ⟨p, hp, h⟩
        · left
          exact h
        · right
          exact ⟨p, List.mem_cons_of_mem _ hp, h⟩

theorem maxByCount_cases (l : List (FieldType × Nat)) :
    maxByCount l = .any ∨ maxByCount l ∈ l.map Prod.fst := by
  rw [maxByCount]
  rcases maxFold_cases l none with h | ⟨p, hp, h⟩
  · rw [h]
    left
    rfl
  · rw [h]
    right
    exact List.mem_map_of_mem _ hp

theorem determine_result (l : List (FieldType × Nat)) :
    determine_common_primitive_type l = .ok .any ∨
    determine_common_primitive_type l = .ok .number ∨
    determine_common_primitive_type l = .ok (maxByCount l) := by
  rw [determine_common_primitive_type]
  split_ifs <;> simp

theorem determine_no_custom {l : List (FieldType × Nat)}
    (h : ∀ u ∈ l.map Prod.fst, u.isCustomB = false) {nm : String}
    (hd : determine_common_primitive_type l = .ok (.custom nm)) : False := by
  rcases determine_result l with he | he | he <;> rw [he] at hd
  · simp at hd
  · simp at hd
  · have : maxByCount l = .custom nm := by
      have := hd
      simp only [Except.ok.injEq] at this
      exact this
    rcases maxByCount_cases l with hc | hc
    · rw [this] at hc
      simp at hc
    · rw [this] at hc
      have := h _ hc
      simp [FieldType.isCustomB] at this

/-! Post-conditions of each converter function, used in the main
structural invariant `converter_invariant`. -/

def ProcPost (ns : List StructDefinition) (st : ConvState)
    (out : (FieldType × Bool) × List StructDefinition × ConvState) : Prop :=
  ∃ Δ, out.2.1 = ns ++ Δ ∧ GoodOut st.generatedNames out.2.2.generatedNames Δ ∧
    ∀ nm, out.1.1 = FieldType.custom nm → nm ∈ Δ.map StructDefinition.name

def FieldPost (ns : List StructDefinition) (st : ConvState)
    (out : FieldDefinition × List StructDefinition × ConvState) : Prop :=
  ∃ Δ, out.2.1 = ns ++ Δ ∧ GoodOut st.generatedNames out.2.2.generatedNames Δ ∧
    ∀ nm, out.1.field_type = FieldType.custom nm → nm ∈ Δ.map StructDefinition.name

def LoopPost (l : List (String × Json)) (ns : List StructDefinition) (st : ConvState)
    (out : List FieldDefinition × List StructDefinition × ConvState) : Prop :=
  out.1.map FieldDefinition.json_name = l.map Prod.fst ∧
  ∃ Δ, out.2.1 = ns ++ Δ ∧ GoodOut st.generatedNames out.2.2.generatedNames Δ ∧
    ∀ f ∈ out.1, ∀ nm, f.field_type = FieldType.custom nm →
      nm ∈ Δ.map StructDefinition.name

def ObjPost (structName : String) (st : ConvState)
    (out : StructDefinition × ConvState) : Prop :=
  out.1.name = structName ∧ StructOk out.1 ∧
  GoodOut st.generatedNames out.2.generatedNames out.1.nested_structs

def TypePost (ns : List StructDefinition) (st : ConvState)
    (out : FieldType × List StructDefinition × ConvState) : Prop :=
  ∃ Δ, out.2.1 = ns ++ Δ ∧ GoodOut st.generatedNames out.2.2.generatedNames Δ ∧
    ∀ nm, out.1 = FieldType.custom nm → nm ∈ Δ.map StructDefinition.name

def ElemTypesPost (acc : List (FieldType × Nat)) (ho : Bool)
    (ns : List StructDefinition) (st : ConvState)
    (out : List (FieldType × Nat) × Bool × Bool × List StructDefinition × ConvState) : Prop :=
  ∃ Δ, out.2.2.2.1 = ns ++ Δ ∧ GoodOut st.generatedNames out.2.2.2.2.generatedNames Δ ∧
    (∀ nm, FieldType.custom nm ∈ out.1.map Prod.fst →
      FieldType.custom nm ∈ acc.map Prod.fst ∨ nm ∈ Δ.map StructDefinition.name) ∧
    (out.2.1 = false → ho = false ∧
      ∀ t ∈ out.1.map Prod.fst, t ∈ acc.map Prod.fst ∨ t.isCustomB = false)

def AccOk (ns : List StructDefinition) (acc : List (String × FieldType × Bool × Bool)) : Prop :=
  ∀ p ∈ acc, ∀ nm, p.2.1 = FieldType.custom nm → nm ∈ ns.map StructDefinition.name

def UnifiedPost (acc : List (String × FieldType × Bool × Bool))
    (ns : List StructDefinition) (st : ConvState)
    (out : List (String × FieldType × Bool × Bool) × List StructDefinition × ConvState) : Prop :=
  ∃ Δ, out.2.1 = ns ++ Δ ∧ GoodOut st.generatedNames out.2.2.generatedNames Δ ∧
    (AccOk ns acc → AccOk out.2.1 out.1)

theorem accOk_mono {ns Δ : List StructDefinition} {acc : List (String × FieldType × Bool × Bool)}
    (h : AccOk ns acc) : AccOk (ns ++ Δ) acc := by
  intro p hp nm hnm
  rw [List.map_append]
  exact List.mem_append_left _ (h p hp nm hnm)

theorem accOk_update {ns : List StructDefinition} {key : String} {t : FieldType}
    {o a : Bool} (acc : List (String × FieldType × Bool × Bool))
    (hacc : AccOk ns acc)
    (ht : ∀ nm, t = FieldType.custom nm → nm ∈ ns.map StructDefinition.name) :
    AccOk ns (updateUnified key t o a acc) := by
  induction acc with
  | nil =>
    intro p hp nm hnm
    rw [updateUnified] at hp
    rcases List.mem_singleton.mp hp with rfl
    exact ht nm hnm
  | cons q rest ih =>
    obtain ⟨k, u, o', a'⟩ := q
    intro p hp nm hnm
    rw [updateUnified] at hp
    by_cases hk : k = key
    · rw [if_pos hk] at hp
      rcases List.mem_cons.mp hp with rfl | hp
      · simp only at hnm
        by_cases hut : u ≠ t
        · rw [if_pos hut] at hnm
          simp at hnm
        · rw [if_neg hut] at hnm
          exact hacc (k, u, o', a') (List.mem_cons_self _ _) nm hnm
      · exact hacc p (List.mem_cons_of_mem _ hp) nm hnm
    · rw [if_neg hk] at hp
      rcases List.mem_cons.mp hp with rfl | hp
      · exact hacc (k, u, o', a') (List.mem_cons_self _ _) nm hnm
      · exact ih (fun q hq => hacc q (List.mem_cons_of_mem _ hq)) p hp nm hnm

/-- Main structural invariant of the converter, proved by strong
induction on the combined termination measure: every successful call
returns well-formed structs whose tree names were freshly allocated in
the registry, with custom field references resolved by pushed structs. -/
theorem converter_invariant (language : String) (maxDepth : Nat) : ∀ k : Nat,
    (∀ v structName st out, 8 * sizeOf v < k →
      convert_object_to_struct language maxDepth v structName st = .ok out →
      ObjPost structName st out) ∧
    (∀ l ns st out, 8 * sizeOf l + 3 < k →
      convert_fields_loop language maxDepth l ns st = .ok out → LoopPost l ns st out) ∧
    (∀ fn v ns st out, 8 * sizeOf v + 2 < k →
      convert_value_to_field language maxDepth fn v ns st = .ok out →
      FieldPost ns st out ∧ out.1.json_name = fn) ∧
    (∀ v fn ns st out, 8 * sizeOf v + 1 < k →
      process_json_type_with_value language maxDepth v fn ns st = .ok out →
      ProcPost ns st out) ∧
    (∀ elems fn ns st out, 8 * sizeOf elems + 6 < k →
      analyze_array_element_type language maxDepth elems fn ns st = .ok out →
      TypePost ns st out) ∧
    (∀ elems fn idx acc ho hp ns st out, 8 * sizeOf elems + 2 < k →
      analyze_elements_loop language maxDepth elems fn idx acc ho hp ns st = .ok out →
      ElemTypesPost acc ho ns st out) ∧
    (∀ elems fn ns st out, 8 * sizeOf elems + 5 < k →
      analyze_mixed_object_types language maxDepth elems fn ns st = .ok out →
      TypePost ns st out) ∧
    (∀ elems structName st out, 8 * sizeOf elems + 4 < k →
      create_unified_struct_from_array language maxDepth elems structName st = .ok out →
      ObjPost structName st out) ∧
    (∀ elems acc ns st out, 8 * sizeOf elems + 3 < k →
      create_unified_loop language maxDepth elems acc ns st = .ok out →
      UnifiedPost acc ns st out) ∧
    (∀ pairs acc ns st out, 8 * sizeOf pairs + 2 < k →
      create_unified_obj_loop language maxDepth pairs acc ns st = .ok out →
      UnifiedPost acc ns st out) := by
  intro k
  induction k using Nat.strong_induction_on with
  | _ k IH =>
  refine ⟨?hobj, ?hloop, ?hcvf, ?hproc, ?haet, ?haeloop, ?hamix, ?hcu, ?hculoop, ?hcuobj⟩
  case hobj =>
    intro v structName st out hm heq
    rw [convert_object_to_struct.eq_def] at heq
    split at heq
    · simp at heq
    · split at heq
      · rename_i fields
        split at heq
        · simp at heq
        · rename_i res flds nested st2 hcall
          simp only [Except.ok.injEq] at heq
          subst heq
          have hmeas : 8 * sizeOf (sortPairs fields) + 3 < 8 * sizeOf (Json.obj fields) := by
            rw [sizeOf_sortPairs]
            simp only [Json.obj.sizeOf_spec]
            omega
          have hpost := (IH (8 * sizeOf (Json.obj fields)) hm).2.1 (sortPairs fields) []
            { st with currentDepth := st.currentDepth + 1 } (flds, nested, st2) hmeas hcall
          obtain ⟨hjson, Δ, hns, hgood, hrefs⟩ := hpost
          simp only at hjson hns
          rw [List.nil_append] at hns
          subst hns
          refine ⟨rfl, ?_, ?_⟩
          · refine StructOk.mk _ ?_ ?_ ?_
            · refine fieldsSortedB_of_key_sorted Prod.fst (sortPairs fields) flds hjson ?_
              exact List.sorted_insertionSort pairLe fields
            · intro f hf nm hft
              exact hrefs f hf nm hft
            · exact hgood.2.2.2
          · exact hgood
      · simp at heq
  case hloop =>
    intro l ns st out hm heq
    rw [convert_fields_loop.eq_def] at heq
    split at heq
    · simp only [Except.ok.injEq] at heq
      subst heq
      refine ⟨rfl, [], by simp, goodOut_nil _, ?_⟩
      intro f hf
      simp at hf
    · rename_i key value rest
      split at heq
      · simp at heq
      · rename_i res1 fd nested1 st2 hcall1
        split at heq
        · simp at heq
        · rename_i res2 flds nested2 st4 hcall2
          simp only [Except.ok.injEq] at heq
          subst heq
          have hm1 : 8 * sizeOf value + 2 < 8 * sizeOf ((key, value) :: rest) + 3 := by
            simp only [List.cons.sizeOf_spec, Prod.mk.sizeOf_spec]
            omega
          have hm2 : 8 * sizeOf rest + 3 < 8 * sizeOf ((key, value) :: rest) + 3 := by
            simp only [List.cons.sizeOf_spec, Prod.mk.sizeOf_spec]
            omega
          have hp1 := (IH (8 * sizeOf ((key, value) :: rest) + 3) hm).2.2.1 key value ns
            { st with currentPath := st.currentPath ++ [key] } (fd, nested1, st2) hm1 hcall1
          have hp2 := (IH (8 * sizeOf ((key, value) :: rest) + 3) hm).2.1 rest nested1
            { st2 with currentPath := st2.currentPath.dropLast } (flds, nested2, st4) hm2 hcall2
          obtain ⟨⟨Δ₁, hns1, hgood1, href1⟩, hjn1⟩ := hp1
          obtain ⟨hjson2, Δ₂, hns2, hgood2, href2⟩ := hp2
          simp only at hns1 hns2 hjn1 hjson2 href1 href2
          refine ⟨?_, Δ₁ ++ Δ₂, ?_, ?_, ?_⟩
          · simp only [List.map_cons, hjn1, hjson2]
          · simp only
            rw [hns2, hns1, List.append_assoc]
          · exact goodOut_trans hgood1 hgood2
          · intro f hf nm hft
            rcases List.mem_cons.mp hf with rfl | hf
            · rw [List.map_append]
              exact List.mem_append_left _ (href1 nm hft)
            · rw [List.map_append]
              exact List.mem_append_right _ (href2 f hf nm hft)
  case hcvf =>
    intro fn v ns st out hm heq
    rw [convert_value_to_field.eq_def] at heq
    split at heq
    · simp at heq
    · rename_i res t b nested1 st1 hcall
      simp only [Except.ok.injEq] at heq
      subst heq
      have hm1 : 8 * sizeOf v + 1 < 8 * sizeOf v + 2 := by omega
      have hp := (IH (8 * sizeOf v + 2) hm).2.2.2.1 v fn ns st ((t, b), nested1, st1) hm1 hcall
      obtain ⟨Δ, hns, hgood, href⟩ := hp
      simp only at hns href
      exact ⟨⟨Δ, hns, hgood, fun nm hft => href nm hft⟩, rfl⟩
  case hproc =>
    intro v fn ns st out hm heq
    rw [process_json_type_with_value.eq_def] at heq
    split at heq
    · rename_i elems
      split at heq
      · simp only [Except.ok.injEq] at heq
        subst heq
        refine ⟨[], by simp, goodOut_nil _, ?_⟩
        intro nm h
        simp at h
      · split at heq
        · simp at heq
        · rename_i res t nested1 st1 hcall
          simp only [Except.ok.injEq] at heq
          subst heq
          have hm1 : 8 * sizeOf elems + 6 < 8 * sizeOf (Json.arr elems) + 1 := by
            simp only [Json.arr.sizeOf_spec]
            omega
          have hp := (IH (8 * sizeOf (Json.arr elems) + 1) hm).2.2.2.2.1 elems fn ns st
            (t, nested1, st1) hm1 hcall
          obtain ⟨Δ, hns, hgood, href⟩ := hp
          exact ⟨Δ, hns, hgood, fun nm hft => href nm hft⟩
    · rename_i fields
      split at heq
      · simp only [Except.ok.injEq] at heq
        subst heq
        refine ⟨[], by simp, goodOut_nil _, ?_⟩
        intro nm h
        simp at h
      · split at heq
        · simp at heq
        · rename_i res sd st1 hcall
          simp only [Except.ok.injEq] at heq
          subst heq
          have hm1 : 8 * sizeOf (Json.obj fields) < 8 * sizeOf (Json.obj fields) + 1 := by
            omega
          have hp := (IH (8 * sizeOf (Json.obj fields) + 1) hm).1 (Json.obj fields)
            (generate_nested_struct_name language fn st).1
            (generate_nested_struct_name language fn st).2 (sd, st1) hm1 hcall
          obtain ⟨hname, hok, hgood⟩ := hp
          refine ⟨[sd], rfl, ?_, ?_⟩
          · exact goodOut_push (generate_fresh language fn st) hok hname hgood
          · intro nm hft
            simp only [FieldType.custom.injEq] at hft
            subst hft
            simp only [List.map_cons, List.map_nil, List.mem_singleton]
            exact hname.symm
    · simp only [Except.ok.injEq] at heq
      subst heq
      exact ⟨[], by simp, goodOut_nil _, fun nm h => by simp at h⟩
    · simp only [Except.ok.injEq] at heq
      subst heq
      exact ⟨[], by simp, goodOut_nil _, fun nm h => by simp at h⟩
    · simp only [Except.ok.injEq] at heq
      subst heq
      exact ⟨[], by simp, goodOut_nil _, fun nm h => by simp at h⟩
    · simp only [Except.ok.injEq] at heq
      subst heq
      exact ⟨[], by simp, goodOut_nil _, fun nm h => by simp at h⟩
    · simp only [Except.ok.injEq] at heq
      subst heq
      exact ⟨[], by simp, goodOut_nil _, fun nm h => by simp at h⟩
  case haet =>
    intro elems fn ns st out hm heq
    rw [analyze_array_element_type.eq_def] at heq
    split at heq
    · simp only [Except.ok.injEq] at heq
      subst heq
      exact ⟨[], by simp, goodOut_nil _, fun nm h => by simp at h⟩
    · split at heq
      · simp at heq
      · rename_i res ets ho hpr nested1 st1 hcall
        have hm1 : 8 * sizeOf elems + 2 < 8 * sizeOf elems + 6 := by omega
        have hloopPost := (IH (8 * sizeOf elems + 6) hm).2.2.2.2.2.1 elems fn 0 [] false false
          ns st (ets, ho, hpr, nested1, st1) hm1 hcall
        obtain ⟨Δ, hns, hgood, hcust, hflag⟩ := hloopPost
        simp only at hns hcust hflag
        split at heq
        · rename_i hlen
          simp only [Except.ok.injEq] at heq
          subst heq
          refine ⟨Δ, hns, hgood, ?_⟩
          intro nm hft
          obtain ⟨p, rfl⟩ := List.length_eq_one.mp hlen
          simp only [List.headD] at hft
          have hmem : FieldType.custom nm ∈ ([p].map Prod.fst) := by
            simp only [List.map_cons, List.map_nil, List.mem_singleton]
            exact hft.symm
          rcases hcust nm hmem with h | h
          · simp at h
          · exact h
        · split at heq
          · simp only [Except.ok.injEq] at heq
            subst heq
            exact ⟨Δ, hns, hgood, fun nm h => by simp at h⟩
          · split at heq
            · have hm2 : 8 * sizeOf elems + 5 < 8 * sizeOf elems + 6 := by omega
              have hmix := (IH (8 * sizeOf elems + 6) hm).2.2.2.2.2.2.1 elems fn nested1 st1
                out hm2 heq
              obtain ⟨Δ₂, hns2, hgood2, href2⟩ := hmix
              refine ⟨Δ ++ Δ₂, ?_, goodOut_trans hgood hgood2, ?_⟩
              · rw [hns2, hns, List.append_assoc]
              · intro nm hft
                rw [List.map_append]
                exact List.mem_append_right _ (href2 nm hft)
            · rename_i hho
              split at heq
              · simp at heq
              · rename_i t hdet
                simp only [Except.ok.injEq] at heq
                subst heq
                refine ⟨Δ, hns, hgood, ?_⟩
                intro nm hft
                simp only at hft
                subst hft
                exfalso
                have hoF : ho = false := by
                  revert hho
                  cases ho <;> simp
                obtain ⟨-, hall⟩ := hflag hoF
                refine determine_no_custom ?_ hdet
                intro u hu
                rcases hall u hu with h | h
                · simp at h
                · exact h
  case haeloop =>
    intro elems fn idx acc ho hp ns st out hm heq
    rw [analyze_elements_loop.eq_def] at heq
    split at heq
    · simp only [Except.ok.injEq] at heq
      subst heq
      refine ⟨[], by simp, goodOut_nil _, ?_, ?_⟩
      · intro nm h
        exact Or.inl h
      · intro h
        exact ⟨h, fun t ht => Or.inl ht⟩
    · rename_i element rest
      split at heq
      · simp at heq
      · rename_i res t b nested1 st1 hp1
        have hm1 : 8 * sizeOf element + 1 < 8 * sizeOf (element :: rest) + 2 := by
          simp only [List.cons.sizeOf_spec]
          omega
        have hm2 : 8 * sizeOf rest + 2 < 8 * sizeOf (element :: rest) + 2 := by
          simp only [List.cons.sizeOf_spec]
          omega
        have hproc := (IH (8 * sizeOf (element :: rest) + 2) hm).2.2.2.1 element
          (fn ++ "_" ++ natRepr idx) ns st ((t, b), nested1, st1) hm1 hp1
        have hrest := (IH (8 * sizeOf (element :: rest) + 2) hm).2.2.2.2.2.1 rest fn (idx + 1)
          (bumpCount t acc) (ho || t.isCustomB) (hp || !t.isCustomB) nested1 st1 out hm2 heq
        obtain ⟨Δ₁, hns1, hgood1, href1⟩ := hproc
        obtain ⟨Δ₂, hns2, hgood2, hcust2, hflag2⟩ := hrest
        simp only at hns1 href1
        refine ⟨Δ₁ ++ Δ₂, ?_, goodOut_trans hgood1 hgood2, ?_, ?_⟩
        · rw [hns2, hns1, List.append_assoc]
        · intro nm hmem
          rcases hcust2 nm hmem with h | h
          · rw [bumpCount_keys] at h
            by_cases hacc : t ∈ acc.map Prod.fst
            · rw [if_pos hacc] at h
              exact Or.inl h
            · rw [if_neg hacc] at h
              rcases List.mem_append.mp h with h | h
              · exact Or.inl h
              · rcases List.mem_singleton.mp h with h2
                right
                rw [List.map_append]
                exact List.mem_append_left _ (href1 nm h2.symm)
          · right
            rw [List.map_append]
            exact List.mem_append_right _ h
        · intro hfalse
          obtain ⟨h1, h2⟩ := hflag2 hfalse
          rw [Bool.or_eq_false_iff] at h1
          refine ⟨h1.1, ?_⟩
          intro u hu
          rcases h2 u hu with h | h
          · rw [bumpCount_keys] at h
            by_cases hacc : t ∈ acc.map Prod.fst
            · rw [if_pos hacc] at h
              exact Or.inl h
            · rw [if_neg hacc] at h
              rcases List.mem_append.mp h with h | h
              · exact Or.inl h
              · rcases List.mem_singleton.mp h with h3
                subst h3
                exact Or.inr h1.2
          · exact Or.inr h
  case hamix =>
    intro elems fn ns st out hm heq
    rw [analyze_mixed_object_types.eq_def] at heq
    split at heq
    · split at heq
      · split at heq
        · simp at heq
        · rename_i res sd st1 hcall
          simp only [Except.ok.injEq] at heq
          subst heq
          have hm1 : 8 * sizeOf elems + 4 < 8 * sizeOf elems + 5 := by omega
          have hp := (IH (8 * sizeOf elems + 5) hm).2.2.2.2.2.2.2.1 elems
            (generate_nested_struct_name language (fn ++ "_item") st).1
            (generate_nested_struct_name language (fn ++ "_item") st).2 (sd, st1) hm1 hcall
          obtain ⟨hname, hok, hgood⟩ := hp
          refine ⟨[sd], rfl, ?_, ?_⟩
          · exact goodOut_push (generate_fresh language (fn ++ "_item") st) hok hname hgood
          · intro nm hft
            simp only [FieldType.custom.injEq] at hft
            subst hft
            simp only [List.map_cons, List.map_nil, List.mem_singleton]
            exact hname.symm
      · simp only [Except.ok.injEq] at heq
        subst heq
        exact ⟨[], by simp, goodOut_nil _, fun nm h => by simp at h⟩
    · simp only [Except.ok.injEq] at heq
      subst heq
      exact ⟨[], by simp, goodOut_nil _, fun nm h => by simp at h⟩
  case hcu =>
    intro elems structName st out hm heq
    rw [create_unified_struct_from_array.eq_def] at heq
    split at heq
    · simp at heq
    · rename_i res uf nestedLocal st1 hcall
      simp only [Except.ok.injEq] at heq
      subst heq
      have hm1 : 8 * sizeOf elems + 3 < 8 * sizeOf elems + 4 := by omega
      have hp := (IH (8 * sizeOf elems + 4) hm).2.2.2.2.2.2.2.2.1 elems [] [] st
        (uf, nestedLocal, st1) hm1 hcall
      obtain ⟨Δ, hns, hgood, hacc⟩ := hp
      simp only at hns hacc
      rw [List.nil_append] at hns
      subst hns
      have hAcc : AccOk nestedLocal uf := by
        apply hacc
        intro p hp2
        simp at hp2
      refine ⟨rfl, ?_, hgood⟩
      refine StructOk.mk _ ?_ ?_ ?_
      · refine fieldsSortedB_of_key_sorted (fun p => p.1) (sortEntries uf) _ ?_ ?_
        · simp only [List.map_map]
          rfl
        · exact List.sorted_insertionSort entryLe uf
      · intro f hf nm hft
        simp only [List.mem_map] at hf
        obtain ⟨p, hp2, rfl⟩ := hf
        simp only at hft
        have hpm : p ∈ uf := (List.perm_insertionSort entryLe uf).mem_iff.mp hp2
        exact hAcc p hpm nm hft
      · exact hgood.2.2.2
  case hculoop =>
    intro elems acc ns st out hm heq
    rw [create_unified_loop.eq_def] at heq
    split at heq
    · simp only [Except.ok.injEq] at heq
      subst heq
      exact ⟨[], by simp, goodOut_nil _, fun h => h⟩
    · rename_i element rest
      split at heq
      case _ fs =>
        split at heq
        · simp at heq
        · rename_i res acc1 nested1 st1 hcall
          have hm1 : 8 * sizeOf (sortPairs fs) + 2 < 8 * sizeOf (Json.obj fs :: rest) + 3 := by
            rw [sizeOf_sortPairs]
            simp only [List.cons.sizeOf_spec, Json.obj.sizeOf_spec]
            omega
          have hm2 : 8 * sizeOf rest + 3 < 8 * sizeOf (Json.obj fs :: rest) + 3 := by
            simp only [List.cons.sizeOf_spec, Json.obj.sizeOf_spec]
            omega
          have hp1 := (IH (8 * sizeOf (Json.obj fs :: rest) + 3) hm).2.2.2.2.2.2.2.2.2
            (sortPairs fs) acc ns st (acc1, nested1, st1) hm1 hcall
          have hp2 := (IH (8 * sizeOf (Json.obj fs :: rest) + 3) hm).2.2.2.2.2.2.2.2.1
            rest acc1 nested1 st1 out hm2 heq
          obtain ⟨Δ₁, hns1, hgood1, hacc1⟩ := hp1
          obtain ⟨Δ₂, hns2, hgood2, hacc2⟩ := hp2
          simp only at hns1 hacc1
          refine ⟨Δ₁ ++ Δ₂, ?_, goodOut_trans hgood1 hgood2, ?_⟩
          · rw [hns2, hns1, List.append_assoc]
          · intro h
            exact hacc2 (hacc1 h)
      all_goals
        exact (IH _ hm).2.2.2.2.2.2.2.2.1 rest acc ns st out
          (by simp only [List.cons.sizeOf_spec]; omega) heq
  case hcuobj =>
    intro pairs acc ns st out hm heq
    rw [create_unified_obj_loop.eq_def] at heq
    split at heq
    · simp only [Except.ok.injEq] at heq
      subst heq
      exact ⟨[], by simp, goodOut_nil _, fun h => h⟩
    · rename_i key value rest
      split at heq
      · simp at heq
      · rename_i res ftype isArray nested1 st1 hp1
        have hm1 : 8 * sizeOf value + 1 < 8 * sizeOf ((key, value) :: rest) + 2 := by
          simp only [List.cons.sizeOf_spec, Prod.mk.sizeOf_spec]
          omega
        have hm2 : 8 * sizeOf rest + 2 < 8 * sizeOf ((key, value) :: rest) + 2 := by
          simp only [List.cons.sizeOf_spec, Prod.mk.sizeOf_spec]
          omega
        have hproc := (IH (8 * sizeOf ((key, value) :: rest) + 2) hm).2.2.2.1 value key ns st
          ((ftype, isArray), nested1, st1) hm1 hp1
        have hrest := (IH (8 * sizeOf ((key, value) :: rest) + 2) hm).2.2.2.2.2.2.2.2.2 rest
          (updateUnified key ftype (isNullB value) isArray acc) nested1 st1 out hm2 heq
        obtain ⟨Δ₁, hns1, hgood1, href1⟩ := hproc
        obtain ⟨Δ₂, hns2, hgood2, hacc2⟩ := hrest
        simp only at hns1 href1
        refine ⟨Δ₁ ++ Δ₂, ?_, goodOut_trans hgood1 hgood2, ?_⟩
        · rw [hns2, hns1, List.append_assoc]
        · intro h
          apply hacc2
          rw [hns1]
          refine accOk_update acc (accOk_mono h) ?_
          intro nm hnm
          rw [List.map_append]
          exact List.mem_append_right _ (href1 nm hnm)

/-- C8: in every record type produced by a conversion run — the root struct
as well as every nested and merged struct in its tree — the field list is
sorted in ascending order of the field's original JSON key. -/
theorem C8_fields_sorted (language : String) (maxDepth : Nat) (st : ConvState)
    (v : Json) (structName : String) (out : StructDefinition × ConvState)
    (h : convert_to_struct language maxDepth st v structName = .ok out) :
    allFieldsSortedB out.1 = true := by
  have h' : convert_object_to_struct language maxDepth v structName ⟨[], [], 0⟩ = .ok out := h
  have hp := (converter_invariant language maxDepth (8 * sizeOf v + 1)).1 v structName
    ⟨[], [], 0⟩ out (by omega) h'
  exact structOk_allFieldsSorted hp.2.1

/-- Witness for C8: converting the object with keys given in the order
b, a yields the root fields re-sorted to a, b. -/
theorem C8_fields_sorted_witness :
    convert_to_struct "go" 20 ⟨[], [], 0⟩
        (Json.obj [("b", Json.int 1), ("a", Json.str "x")]) "Root" =
      .ok ({ name := "Root",
             fields := [
               { json_name := "a", code_name := "A", field_type := .string,
                 is_optional := false, is_array := false, comments := [],
                 metadata := [("json_name", "a")] },
               { json_name := "b", code_name := "B", field_type := .integer,
                 is_optional := false, is_array := false, comments := [],
                 metadata := [("json_name", "b")] }],
             nested_structs := [], comments := [], metadata := [] }, ⟨[], [], 0⟩) ∧
    allFieldsSortedB
      { name := "Root",
        fields := [
          { json_name := "a", code_name := "A", field_type := .string,
            is_optional := false, is_array := false, comments := [],
            metadata := [("json_name", "a")] },
          { json_name := "b", code_name := "B", field_type := .integer,
            is_optional := false, is_array := false, comments := [],
            metadata := [("json_name", "b")] }],
        nested_structs := [], comments := [], metadata := [] } = true := by
  have pa : process_json_type_with_value "go" 20 (.str "x") "a" [] ⟨[], ["a"], 1⟩ =
      .ok ((.string, false), [], ⟨[], ["a"], 1⟩) := process_str
  have pb : process_json_type_with_value "go" 20 (.int 1) "b" [] ⟨[], ["b"], 1⟩ =
      .ok ((.integer, false), [], ⟨[], ["b"], 1⟩) := process_int
  have ca : convert_value_to_field "go" 20 "a" (.str "x") [] ⟨[], ["a"], 1⟩ =
      .ok ({ json_name := "a", code_name := "A", field_type := .string,
             is_optional := false, is_array := false, comments := [],
             metadata := [("json_name", "a")] }, [], ⟨[], ["a"], 1⟩) :=
    convert_value_to_field_ok pa
  have cb : convert_value_to_field "go" 20 "b" (.int 1) [] ⟨[], ["b"], 1⟩ =
      .ok ({ json_name := "b", code_name := "B", field_type := .integer,
             is_optional := false, is_array := false, comments := [],
             metadata := [("json_name", "b")] }, [], ⟨[], ["b"], 1⟩) :=
    convert_value_to_field_ok pb
  have l0 : convert_fields_loop "go" 20 [] [] (⟨[], [], 1⟩ : ConvState) =
      .ok ([], [], ⟨[], [], 1⟩) := convert_fields_loop_nil
  have l2 : convert_fields_loop "go" 20 [("b", .int 1)] [] (⟨[], [], 1⟩ : ConvState) =
      .ok ([{ json_name := "b", code_name := "B", field_type := .integer,
              is_optional := false, is_array := false, comments := [],
              metadata := [("json_name", "b")] }], [], ⟨[], [], 1⟩) :=
    convert_fields_loop_cons_ok cb l0
  have l1s : convert_fields_loop "go" 20 (sortPairs [("b", .int 1), ("a", .str "x")]) []
      (⟨[], [], 1⟩ : ConvState) =
      .ok ([{ json_name := "a", code_name := "A", field_type := .string,
              is_optional := false, is_array := false, comments := [],
              metadata := [("json_name", "a")] },
            { json_name := "b", code_name := "B", field_type := .integer,
              is_optional := false, is_array := false, comments := [],
              metadata := [("json_name", "b")] }], [], ⟨[], [], 1⟩) :=
    convert_fields_loop_cons_ok ca l2
  have hroot : convert_object_to_struct "go" 20
      (Json.obj [("b", Json.int 1), ("a", Json.str "x")]) "Root" (⟨[], [], 0⟩ : ConvState) =
      .ok ({ name := "Root",
             fields := [
               { json_name := "a", code_name := "A", field_type := .string,
                 is_optional := false, is_array := false, comments := [],
                 metadata := [("json_name", "a")] },
               { json_name := "b", code_name := "B", field_type := .integer,
                 is_optional := false, is_array := false, comments := [],
                 metadata := [("json_name", "b")] }],
             nested_structs := [], comments := [], metadata := [] }, ⟨[], [], 0⟩) :=
    convert_object_to_struct_obj_ok (by decide) l1s
  have heval : convert_to_struct "go" 20 ⟨[], [], 0⟩
      (Json.obj [("b", Json.int 1), ("a", Json.str "x")]) "Root" =
      .ok ({ name := "Root",
             fields := [
               { json_name := "a", code_name := "A", field_type := .string,
                 is_optional := false, is_array := false, comments := [],
                 metadata := [("json_name", "a")] },
               { json_name := "b", code_name := "B", field_type := .integer,
                 is_optional := false, is_array := false, comments := [],
                 metadata := [("json_name", "b")] }],
             nested_structs := [], comments := [], metadata := [] }, ⟨[], [], 0⟩) := hroot
  exact ⟨heval, C8_fields_sorted "go" 20 ⟨[], [], 0⟩ _ "Root" _ heval⟩

/-- C9: in every StructDefinition returned by a successful conversion run,
every field typed as a custom reference names a struct present in the
enclosing struct's nested-struct tree. -/
theorem C9_custom_refs_closed (language : String) (maxDepth : Nat) (st : ConvState)
    (v : Json) (structName : String) (out : StructDefinition × ConvState)
    (h : convert_to_struct language maxDepth st v structName = .ok out) :
    refsClosedB out.1 = true := by
  have h' : convert_object_to_struct language maxDepth v structName ⟨[], [], 0⟩ = .ok out := h
  have hp := (converter_invariant language maxDepth (8 * sizeOf v + 1)).1 v structName
    ⟨[], [], 0⟩ out (by omega) h'
  exact structOk_refsClosed hp.2.1

/-- Witness for C9: the nested object at key n becomes a struct NN and the
root field n refers to it by that name. -/
theorem C9_custom_refs_closed_witness :
    convert_to_struct "go" 20 ⟨[], [], 0⟩
        (Json.obj [("n", Json.obj [("k", Json.int 1)])]) "Root" =
      .ok ({ name := "Root",
             fields := [
               { json_name := "n", code_name := "N", field_type := .custom "NN",
                 is_optional := false, is_array := false, comments := [],
                 metadata := [("json_name", "n")] }],
             nested_structs := [
               { name := "NN",
                 fields := [
                   { json_name := "k", code_name := "K", field_type := .integer,
                     is_optional := false, is_array := false, comments := [],
                     metadata := [("json_name", "k")] }],
                 nested_structs := [], comments := [], metadata := [] }],
             comments := [], metadata := [] }, ⟨["NN"], [], 0⟩) ∧
    refsClosedB
      { name := "Root",
        fields := [
          { json_name := "n", code_name := "N", field_type := .custom "NN",
            is_optional := false, is_array := false, comments := [],
            metadata := [("json_name", "n")] }],
        nested_structs := [
          { name := "NN",
            fields := [
              { json_name := "k", code_name := "K", field_type := .integer,
                is_optional := false, is_array := false, comments := [],
                metadata := [("json_name", "k")] }],
            nested_structs := [], comments := [], metadata := [] }],
        comments := [], metadata := [] } = true := by
  have pk : process_json_type_with_value "go" 20 (.int 1) "k" []
      (⟨["NN"], ["n", "k"], 2⟩ : ConvState) =
      .ok ((.integer, false), [], ⟨["NN"], ["n", "k"], 2⟩) := process_int
  have ck : convert_value_to_field "go" 20 "k" (.int 1) [] (⟨["NN"], ["n", "k"], 2⟩ : ConvState) =
      .ok ({ json_name := "k", code_name := "K", field_type := .integer,
             is_optional := false, is_array := false, comments := [],
             metadata := [("json_name", "k")] }, [], ⟨["NN"], ["n", "k"], 2⟩) :=
    convert_value_to_field_ok pk
  have li0 : convert_fields_loop "go" 20 [] [] (⟨["NN"], ["n"], 2⟩ : ConvState) =
      .ok ([], [], ⟨["NN"], ["n"], 2⟩) := convert_fields_loop_nil
  have li1 : convert_fields_loop "go" 20 (sortPairs [("k", Json.int 1)]) []
      (⟨["NN"], ["n"], 2⟩ : ConvState) =
      .ok ([{ json_name := "k", code_name := "K", field_type := .integer,
              is_optional := false, is_array := false, comments := [],
              metadata := [("json_name", "k")] }], [], ⟨["NN"], ["n"], 2⟩) :=
    convert_fields_loop_cons_ok ck li0
  have hinner : convert_object_to_struct "go" 20 (Json.obj [("k", Json.int 1)]) "NN"
      (⟨["NN"], ["n"], 1⟩ : ConvState) =
      .ok ({ name := "NN",
             fields := [
               { json_name := "k", code_name := "K", field_type := .integer,
                 is_optional := false, is_array := false, comments := [],
                 metadata := [("json_name", "k")] }],
             nested_structs := [], comments := [], metadata := [] }, ⟨["NN"], ["n"], 1⟩) :=
    convert_object_to_struct_obj_ok (by decide) li1
  have pn : process_json_type_with_value "go" 20 (Json.obj [("k", Json.int 1)]) "n" []
      (⟨[], ["n"], 1⟩ : ConvState) =
      .ok ((.custom "NN", false),
           [{ name := "NN",
              fields := [
                { json_name := "k", code_name := "K", field_type := .integer,
                  is_optional := false, is_array := false, comments := [],
                  metadata := [("json_name", "k")] }],
              nested_structs := [], comments := [], metadata := [] }], ⟨["NN"], ["n"], 1⟩) :=
    process_obj_ok rfl rfl hinner
  have cn : convert_value_to_field "go" 20 "n" (Json.obj [("k", Json.int 1)]) []
      (⟨[], ["n"], 1⟩ : ConvState) =
      .ok ({ json_name := "n", code_name := "N", field_type := .custom "NN",
             is_optional := false, is_array := false, comments := [],
             metadata := [("json_name", "n")] },
           [{ name := "NN",
              fields := [
                { json_name := "k", code_name := "K", field_type := .integer,
                  is_optional := false, is_array := false, comments := [],
                  metadata := [("json_name", "k")] }],
              nested_structs := [], comments := [], metadata := [] }], ⟨["NN"], ["n"], 1⟩) :=
    convert_value_to_field_ok pn
  have lr0 : convert_fields_loop "go" 20 []
      [{ name := "NN",
         fields := [
           { json_name := "k", code_name := "K", field_type := .integer,
             is_optional := false, is_array := false, comments := [],
             metadata := [("json_name", "k")] }],
         nested_structs := [], comments := [], metadata := [] }]
      (⟨["NN"], [], 1⟩ : ConvState) =
      .ok ([],
           [{ name := "NN",
              fields := [
                { json_name := "k", code_name := "K", field_type := .integer,
                  is_optional := false, is_array := false, comments := [],
                  metadata := [("json_name", "k")] }],
              nested_structs := [], comments := [], metadata := [] }], ⟨["NN"], [], 1⟩) :=
    convert_fields_loop_nil
  have lr1 : convert_fields_loop "go" 20 (sortPairs [("n", Json.obj [("k", Json.int 1)])]) []
      (⟨[], [], 1⟩ : ConvState) =
      .ok ([{ json_name := "n", code_name := "N", field_type := .custom "NN",
              is_optional := false, is_array := false, comments := [],
              metadata := [("json_name", "n")] }],
           [{ name := "NN",
              fields := [
                { json_name := "k", code_name := "K", field_type := .integer,
                  is_optional := false, is_array := false, comments := [],
                  metadata := [("json_name", "k")] }],
              nested_structs := [], comments := [], metadata := [] }], ⟨["NN"], [], 1⟩) :=
    convert_fields_loop_cons_ok cn lr0
  have hroot : convert_object_to_struct "go" 20
      (Json.obj [("n", Json.obj [("k", Json.int 1)])]) "Root" (⟨[], [], 0⟩ : ConvState) =
      .ok ({ name := "Root",
             fields := [
               { json_name := "n", code_name := "N", field_type := .custom "NN",
                 is_optional := false, is_array := false, comments := [],
                 metadata := [("json_name", "n")] }],
             nested_structs := [
               { name := "NN",
                 fields := [
                   { json_name := "k", code_name := "K", field_type := .integer,
                     is_optional := false, is_array := false, comments := [],
                     metadata := [("json_name", "k")] }],
                 nested_structs := [], comments := [], metadata := [] }],
             comments := [], metadata := [] }, ⟨["NN"], [], 0⟩) :=
    convert_object_to_struct_obj_ok (by decide) lr1
  have heval : convert_to_struct "go" 20 ⟨[], [], 0⟩
      (Json.obj [("n", Json.obj [("k", Json.int 1)])]) "Root" =
      .ok ({ name := "Root",
             fields := [
               { json_name := "n", code_name := "N", field_type := .custom "NN",
                 is_optional := false, is_array := false, comments := [],
                 metadata := [("json_name", "n")] }],
             nested_structs := [
               { name := "NN",
                 fields := [
                   { json_name := "k", code_name := "K", field_type := .integer,
                     is_optional := false, is_array := false, comments := [],
                     metadata := [("json_name", "k")] }],
                 nested_structs := [], comments := [], metadata := [] }],
             comments := [], metadata := [] }, ⟨["NN"], [], 0⟩) := hroot
  exact ⟨heval, C9_custom_refs_closed "go" 20 ⟨[], [], 0⟩ _ "Root" _ heval⟩

/-- C3 (amended): across one conversion run the registry de-duplicates the
names of all nested and merged structs, so no two structs of the returned
nested-struct tree share a name; the requested root name, however, is never
entered into the registry and can coincide with a nested struct's name. -/
theorem C3_unique_generated_names (language : String) (maxDepth : Nat) (st : ConvState)
    (v : Json) (structName : String) (out : StructDefinition × ConvState)
    (h : convert_to_struct language maxDepth st v structName = .ok out) :
    (structNamesList out.1.nested_structs).Nodup := by
  have h' : convert_object_to_struct language maxDepth v structName ⟨[], [], 0⟩ = .ok out := h
  have hp := (converter_invariant language maxDepth (8 * sizeOf v + 1)).1 v structName
    ⟨[], [], 0⟩ out (by omega) h'
  exact hp.2.2.2.1

/-- Witness for C3: the nested object at key p becomes the uniquely named
struct PP. -/
theorem C3_unique_generated_names_witness :
    convert_to_struct "go" 20 ⟨[], [], 0⟩
        (Json.obj [("p", Json.obj [("q", Json.bool true)])]) "Root" =
      .ok ({ name := "Root",
             fields := [
               { json_name := "p", code_name := "P", field_type := .custom "PP",
                 is_optional := false, is_array := false, comments := [],
                 metadata := [("json_name", "p")] }],
             nested_structs := [
               { name := "PP",
                 fields := [
                   { json_name := "q", code_name := "Q", field_type := .boolean,
                     is_optional := false, is_array := false, comments := [],
                     metadata := [("json_name", "q")] }],
                 nested_structs := [], comments := [], metadata := [] }],
             comments := [], metadata := [] }, ⟨["PP"], [], 0⟩) ∧
    (structNamesList [
       { name := "PP",
         fields := [
           { json_name := "q", code_name := "Q", field_type := .boolean,
             is_optional := false, is_array := false, comments := [],
             metadata := [("json_name", "q")] }],
         nested_structs := [], comments := [], metadata := [] }]).Nodup := by
  have pq : process_json_type_with_value "go" 20 (.bool true) "q" []
      (⟨["PP"], ["p", "q"], 2⟩ : ConvState) =
      .ok ((.boolean, false), [], ⟨["PP"], ["p", "q"], 2⟩) := process_bool
  have cq : convert_value_to_field "go" 20 "q" (.bool true) []
      (⟨["PP"], ["p", "q"], 2⟩ : ConvState) =
      .ok ({ json_name := "q", code_name := "Q", field_type := .boolean,
             is_optional := false, is_array := false, comments := [],
             metadata := [("json_name", "q")] }, [], ⟨["PP"], ["p", "q"], 2⟩) :=
    convert_value_to_field_ok pq
  have li0 : convert_fields_loop "go" 20 [] [] (⟨["PP"], ["p"], 2⟩ : ConvState) =
      .ok ([], [], ⟨["PP"], ["p"], 2⟩) := convert_fields_loop_nil
  have li1 : convert_fields_loop "go" 20 (sortPairs [("q", Json.bool true)]) []
      (⟨["PP"], ["p"], 2⟩ : ConvState) =
      .ok ([{ json_name := "q", code_name := "Q", field_type := .boolean,
              is_optional := false, is_array := false, comments := [],
              metadata := [("json_name", "q")] }], [], ⟨["PP"], ["p"], 2⟩) :=
    convert_fields_loop_cons_ok cq li0
  have hinner : convert_object_to_struct "go" 20 (Json.obj [("q", Json.bool true)]) "PP"
      (⟨["PP"], ["p"], 1⟩ : ConvState) =
      .ok ({ name := "PP",
             fields := [
               { json_name := "q", code_name := "Q", field_type := .boolean,
                 is_optional := false, is_array := false, comments := [],
                 metadata := [("json_name", "q")] }],
             nested_structs := [], comments := [], metadata := [] }, ⟨["PP"], ["p"], 1⟩) :=
    convert_object_to_struct_obj_ok (by decide) li1
  have pp : process_json_type_with_value "go" 20 (Json.obj [("q", Json.bool true)]) "p" []
      (⟨[], ["p"], 1⟩ : ConvState) =
      .ok ((.custom "PP", false),
           [{ name := "PP",
              fields := [
                { json_name := "q", code_name := "Q", field_type := .boolean,
                  is_optional := false, is_array := false, comments := [],
                  metadata := [("json_name", "q")] }],
              nested_structs := [], comments := [], metadata := [] }], ⟨["PP"], ["p"], 1⟩) :=
    process_obj_ok rfl rfl hinner
  have cp : convert_value_to_field "go" 20 "p" (Json.obj [("q", Json.bool true)]) []
      (⟨[], ["p"], 1⟩ : ConvState) =
      .ok ({ json_name := "p", code_name := "P", field_type := .custom "PP",
             is_optional := false, is_array := false, comments := [],
             metadata := [("json_name", "p")] },
           [{ name := "PP",
              fields := [
                { json_name := "q", code_name := "Q", field_type := .boolean,
                  is_optional := false, is_array := false, comments := [],
                  metadata := [("json_name", "q")] }],
              nested_structs := [], comments := [], metadata := [] }], ⟨["PP"], ["p"], 1⟩) :=
    convert_value_to_field_ok pp
  have lr0 : convert_fields_loop "go" 20 []
      [{ name := "PP",
         fields := [
           { json_name := "q", code_name := "Q", field_type := .boolean,
             is_optional := false, is_array := false, comments := [],
             metadata := [("json_name", "q")] }],
         nested_structs := [], comments := [], metadata := [] }]
      (⟨["PP"], [], 1⟩ : ConvState) =
      .ok ([],
           [{ name := "PP",
              fields := [
                { json_name := "q", code_name := "Q", field_type := .boolean,
                  is_optional := false, is_array := false, comments := [],
                  metadata := [("json_name", "q")] }],
              nested_structs := [], comments := [], metadata := [] }], ⟨["PP"], [], 1⟩) :=
    convert_fields_loop_nil
  have lr1 : convert_fields_loop "go" 20 (sortPairs [("p", Json.obj [("q", Json.bool true)])]) []
      (⟨[], [], 1⟩ : ConvState) =
      .ok ([{ json_name := "p", code_name := "P", field_type := .custom "PP",
              is_optional := false, is_array := false, comments := [],
              metadata := [("json_name", "p")] }],
           [{ name := "PP",
              fields := [
                { json_name := "q", code_name := "Q", field_type := .boolean,
                  is_optional := false, is_array := false, comments := [],
                  metadata := [("json_name", "q")] }],
              nested_structs := [], comments := [], metadata := [] }], ⟨["PP"], [], 1⟩) :=
    convert_fields_loop_cons_ok cp lr0
  have hroot : convert_object_to_struct "go" 20
      (Json.obj [("p", Json.obj [("q", Json.bool true)])]) "Root" (⟨[], [], 0⟩ : ConvState) =
      .ok ({ name := "Root",
             fields := [
               { json_name := "p", code_name := "P", field_type := .custom "PP",
                 is_optional := false, is_array := false, comments := [],
                 metadata := [("json_name", "p")] }],
             nested_structs := [
               { name := "PP",
                 fields := [
                   { json_name := "q", code_name := "Q", field_type := .boolean,
                     is_optional := false, is_array := false, comments := [],
                     metadata := [("json_name", "q")] }],
                 nested_structs := [], comments := [], metadata := [] }],
             comments := [], metadata := [] }, ⟨["PP"], [], 0⟩) :=
    convert_object_to_struct_obj_ok (by decide) lr1
  have heval : convert_to_struct "go" 20 ⟨[], [], 0⟩
      (Json.obj [("p", Json.obj [("q", Json.bool true)])]) "Root" =
      .ok ({ name := "Root",
             fields := [
               { json_name := "p", code_name := "P", field_type := .custom "PP",
                 is_optional := false, is_array := false, comments := [],
                 metadata := [("json_name", "p")] }],
             nested_structs := [
               { name := "PP",
                 fields := [
                   { json_name := "q", code_name := "Q", field_type := .boolean,
                     is_optional := false, is_array := false, comments := [],
                     metadata := [("json_name", "q")] }],
                 nested_structs := [], comments := [], metadata := [] }],
             comments := [], metadata := [] }, ⟨["PP"], [], 0⟩) := hroot
  exact ⟨heval, C3_unique_generated_names "go" 20 ⟨[], [], 0⟩ _ "Root" _ heval⟩

/-- Counterexample to C3 as stated: the requested root name is never
registered, so converting the object at key a under the root name AA
produces a nested struct also named AA — two record types of the run share
a name. -/
theorem C3_counterexample :
    convert_to_struct "go" 20 ⟨[], [], 0⟩
        (Json.obj [("a", Json.obj [("x", Json.int 1)])]) "AA" =
      .ok ({ name := "AA",
             fields := [
               { json_name := "a", code_name := "A", field_type := .custom "AA",
                 is_optional := false, is_array := false, comments := [],
                 metadata := [("json_name", "a")] }],
             nested_structs := [
               { name := "AA",
                 fields := [
                   { json_name := "x", code_name := "X", field_type := .integer,
                     is_optional := false, is_array := false, comments := [],
                     metadata := [("json_name", "x")] }],
                 nested_structs := [], comments := [], metadata := [] }],
             comments := [], metadata := [] }, ⟨["AA"], [], 0⟩) ∧
    ¬ (structNames
        { name := "AA",
          fields := [
            { json_name := "a", code_name := "A", field_type := .custom "AA",
              is_optional := false, is_array := false, comments := [],
              metadata := [("json_name", "a")] }],
          nested_structs := [
            { name := "AA",
              fields := [
                { json_name := "x", code_name := "X", field_type := .integer,
                  is_optional := false, is_array := false, comments := [],
                  metadata := [("json_name", "x")] }],
              nested_structs := [], comments := [], metadata := [] }],
          comments := [], metadata := [] }).Nodup := by
  have px : process_json_type_with_value "go" 20 (.int 1) "x" []
      (⟨["AA"], ["a", "x"], 2⟩ : ConvState) =
      .ok ((.integer, false), [], ⟨["AA"], ["a", "x"], 2⟩) := process_int
  have cx : convert_value_to_field "go" 20 "x" (.int 1) []
      (⟨["AA"], ["a", "x"], 2⟩ : ConvState) =
      .ok ({ json_name := "x", code_name := "X", field_type := .integer,
             is_optional := false, is_array := false, comments := [],
             metadata := [("json_name", "x")] }, [], ⟨["AA"], ["a", "x"], 2⟩) :=
    convert_value_to_field_ok px
  have li0 : convert_fields_loop "go" 20 [] [] (⟨["AA"], ["a"], 2⟩ : ConvState) =
      .ok ([], [], ⟨["AA"], ["a"], 2⟩) := convert_fields_loop_nil
  have li1 : convert_fields_loop "go" 20 (sortPairs [("x", Json.int 1)]) []
      (⟨["AA"], ["a"], 2⟩ : ConvState) =
      .ok ([{ json_name := "x", code_name := "X", field_type := .integer,
              is_optional := false, is_array := false, comments := [],
              metadata := [("json_name", "x")] }], [], ⟨["AA"], ["a"], 2⟩) :=
    convert_fields_loop_cons_ok cx li0
  have hinner : convert_object_to_struct "go" 20 (Json.obj [("x", Json.int 1)]) "AA"
      (⟨["AA"], ["a"], 1⟩ : ConvState) =
      .ok ({ name := "AA",
             fields := [
               { json_name := "x", code_name := "X", field_type := .integer,
                 is_optional := false, is_array := false, comments := [],
                 metadata := [("json_name", "x")] }],
             nested_structs := [], comments := [], metadata := [] }, ⟨["AA"], ["a"], 1⟩) :=
    convert_object_to_struct_obj_ok (by decide) li1
  have pa : process_json_type_with_value "go" 20 (Json.obj [("x", Json.int 1)]) "a" []
      (⟨[], ["a"], 1⟩ : ConvState) =
      .ok ((.custom "AA", false),
           [{ name := "AA",
              fields := [
                { json_name := "x", code_name := "X", field_type := .integer,
                  is_optional := false, is_array := false, comments := [],
                  metadata := [("json_name", "x")] }],
              nested_structs := [], comments := [], metadata := [] }], ⟨["AA"], ["a"], 1⟩) :=
    process_obj_ok rfl rfl hinner
  have ca : convert_value_to_field "go" 20 "a" (Json.obj [("x", Json.int 1)]) []
      (⟨[], ["a"], 1⟩ : ConvState) =
      .ok ({ json_name := "a", code_name := "A", field_type := .custom "AA",
             is_optional := false, is_array := false, comments := [],
             metadata := [("json_name", "a")] },
           [{ name := "AA",
              fields := [
                { json_name := "x", code_name := "X", field_type := .integer,
                  is_optional := false, is_array := false, comments := [],
                  metadata := [("json_name", "x")] }],
              nested_structs := [], comments := [], metadata := [] }], ⟨["AA"], ["a"], 1⟩) :=
    convert_value_to_field_ok pa
  have lr0 : convert_fields_loop "go" 20 []
      [{ name := "AA",
         fields := [
           { json_name := "x", code_name := "X", field_type := .integer,
             is_optional := false, is_array := false, comments := [],
             metadata := [("json_name", "x")] }],
         nested_structs := [], comments := [], metadata := [] }]
      (⟨["AA"], [], 1⟩ : ConvState) =
      .ok ([],
           [{ name := "AA",
              fields := [
                { json_name := "x", code_name := "X", field_type := .integer,
                  is_optional := false, is_array := false, comments := [],
                  metadata := [("json_name", "x")] }],
              nested_structs := [], comments := [], metadata := [] }], ⟨["AA"], [], 1⟩) :=
    convert_fields_loop_nil
  have lr1 : convert_fields_loop "go" 20 (sortPairs [("a", Json.obj [("x", Json.int 1)])]) []
      (⟨[], [], 1⟩ : ConvState) =
      .ok ([{ json_name := "a", code_name := "A", field_type := .custom "AA",
              is_optional := false, is_array := false, comments := [],
              metadata := [("json_name", "a")] }],
           [{ name := "AA",
              fields := [
                { json_name := "x", code_name := "X", field_type := .integer,
                  is_optional := false, is_array := false, comments := [],
                  metadata := [("json_name", "x")] }],
              nested_structs := [], comments := [], metadata := [] }], ⟨["AA"], [], 1⟩) :=
    convert_fields_loop_cons_ok ca lr0
  have hroot : convert_object_to_struct "go" 20
      (Json.obj [("a", Json.obj [("x", Json.int 1)])]) "AA" (⟨[], [], 0⟩ : ConvState) =
      .ok ({ name := "AA",
             fields := [
               { json_name := "a", code_name := "A", field_type := .custom "AA",
                 is_optional := false, is_array := false, comments := [],
                 metadata := [("json_name", "a")] }],
             nested_structs := [
               { name := "AA",
                 fields := [
                   { json_name := "x", code_name := "X", field_type := .integer,
                     is_optional := false, is_array := false, comments := [],
                     metadata := [("json_name", "x")] }],
                 nested_structs := [], comments := [], metadata := [] }],
             comments := [], metadata := [] }, ⟨["AA"], [], 0⟩) :=
    convert_object_to_struct_obj_ok (by decide) lr1
  refine ⟨hroot, ?_⟩
  have hnames : structNames
      { name := "AA",
        fields := [
          { json_name := "a", code_name := "A", field_type := .custom "AA",
            is_optional := false, is_array := false, comments := [],
            metadata := [("json_name", "a")] }],
        nested_structs := [
          { name := "AA",
            fields := [
              { json_name := "x", code_name := "X", field_type := .integer,
                is_optional := false, is_array := false, comments := [],
                metadata := [("json_name", "x")] }],
            nested_structs := [], comments := [], metadata := [] }],
        comments := [], metadata := [] } = ["AA", "AA"] := by
    simp [structNames, structNamesList]
  rw [hnames]
  decide

/-! Optionality of unified fields (`create_unified_struct_from_array`):
the flag recorded for a key is the OR of `value.is_null()` over the key's
occurrences in the object elements; absence from an element contributes
nothing. -/

/-- One array element is an object binding `k` to null (iterated in
BTreeMap key order, as the unification loop does). -/
def objHasNullAt (k : String) : Json → Bool
  | .obj fs => (sortPairs fs).any (fun p => p.1 == k && isNullB p.2)
  | _ => false

/-- Some object element of the array binds `k` to null. -/
def someNullAt (k : String) (elems : List Json) : Bool := elems.any (objHasNullAt k)

/-- First entry of the unified-field accumulator holding key `k`. -/
def findU (k : String) :
    List (String × FieldType × Bool × Bool) → Option (FieldType × Bool × Bool)
  | [] => none
  | p :: rest => if p.1 = k then some p.2 else findU k rest

/-- The optional flag the accumulator records for `k` (false when absent). -/
def optAt (k : String) (acc : List (String × FieldType × Bool × Bool)) : Bool :=
  ((findU k acc).map (fun e => e.2.1)).getD false

theorem findU_updateUnified_self (key : String) (t : FieldType) (o a : Bool) :
    ∀ acc, findU key (updateUnified key t o a acc) =
      match findU key acc with
      | some e => some ((if e.1 ≠ t then .any else e.1), e.2.1 || o, e.2.2 || a)
      | none => some (t, o, a) := by
  intro acc
  induction acc with
  | nil => simp [updateUnified, findU]
  | cons p rest ih =>
    obtain ⟨k, t', o', a'⟩ := p
    by_cases hk : k = key
    · subst hk
      simp [updateUnified, findU]
    · simp only [updateUnified, if_neg hk, findU, ih]

theorem findU_updateUnified_other {k key : String} (h : k ≠ key) (t : FieldType) (o a : Bool) :
    ∀ acc, findU k (updateUnified key t o a acc) = findU k acc := by
  intro acc
  induction acc with
  | nil =>
    simp only [updateUnified, findU]
    rw [if_neg (show ¬ key = k from fun hc => h hc.symm)]
  | cons p rest ih =>
    obtain ⟨k', t', o', a'⟩ := p
    by_cases hk : k' = key
    · subst hk
      simp only [updateUnified, if_pos rfl, findU]
      rw [if_neg (fun hc => h hc.symm), if_neg (fun hc => h hc.symm)]
    · simp only [updateUnified, if_neg hk, findU, ih]

theorem optAt_updateUnified (k key : String) (t : FieldType) (o a : Bool)
    (acc : List (String × FieldType × Bool × Bool)) :
    optAt k (updateUnified key t o a acc) =
      if k = key then optAt k acc || o else optAt k acc := by
  by_cases hk : k = key
  · subst hk
    rw [if_pos rfl, optAt, findU_updateUnified_self]
    rcases hf : findU k acc with - | e
    · simp [optAt, hf]
    · simp [optAt, hf]
  · rw [if_neg hk, optAt, findU_updateUnified_other hk, optAt]

theorem updateUnified_keys (key : String) (t : FieldType) (o a : Bool) :
    ∀ acc : List (String × FieldType × Bool × Bool),
    (updateUnified key t o a acc).map Prod.fst =
      if key ∈ acc.map Prod.fst then acc.map Prod.fst else acc.map Prod.fst ++ [key] := by
  intro acc
  induction acc with
  | nil => simp [updateUnified]
  | cons p rest ih =>
    obtain ⟨k, t', o', a'⟩ := p
    by_cases hk : k = key
    · subst hk
      simp [updateUnified]
    · simp only [updateUnified, if_neg hk, List.map_cons, ih]
      by_cases hm : key ∈ rest.map Prod.fst
      · simp [hm, Ne.symm hk]
      · simp [hm, Ne.symm hk]

theorem updateUnified_nodup {acc : List (String × FieldType × Bool × Bool)}
    (key : String) (t : FieldType) (o a : Bool)
    (h : (acc.map Prod.fst).Nodup) :
    ((updateUnified key t o a acc).map Prod.fst).Nodup := by
  rw [updateUnified_keys]
  by_cases hm : key ∈ acc.map Prod.fst
  · rw [if_pos hm]
    exact h
  · rw [if_neg hm, List.nodup_append]
    refine ⟨h, List.nodup_singleton _, ?_⟩
    intro x hx hx2
    rcases List.mem_singleton.mp hx2 with rfl
    exact hm hx

theorem findU_of_mem : ∀ {acc : List (String × FieldType × Bool × Bool)},
    (acc.map Prod.fst).Nodup → ∀ {p}, p ∈ acc → findU p.1 acc = some p.2 := by
  intro acc
  induction acc with
  | nil =>
    intro _ p hp
    simp at hp
  | cons q rest ih =>
    intro hnd p hp
    rw [List.map_cons, List.nodup_cons] at hnd
    rcases List.mem_cons.mp hp with rfl | hp
    · rw [findU, if_pos rfl]
    · have hq : q.1 ≠ p.1 := by
        intro hc
        apply hnd.1
        rw [hc]
        exact List.mem_map.mpr ⟨p, hp, rfl⟩
      rw [findU, if_neg hq]
      exact ih hnd.2 hp

/-- Per-object invariant of the unification loop: the optional flag of
each key is OR-accumulated from `isNullB` of the key's values, and the
accumulator's keys stay duplicate-free. -/
theorem create_unified_obj_loop_flags (language : String) (maxDepth : Nat) :
    ∀ (pairs : List (String × Json)) acc ns st out,
    create_unified_obj_loop language maxDepth pairs acc ns st = .ok out →
    (∀ k, optAt k out.1 = (optAt k acc || pairs.any (fun p => p.1 == k && isNullB p.2))) ∧
    ((acc.map Prod.fst).Nodup → (out.1.map Prod.fst).Nodup) := by
  intro pairs
  induction pairs with
  | nil =>
    intro acc ns st out heq
    rw [create_unified_obj_loop.eq_def] at heq
    simp only [Except.ok.injEq] at heq
    subst heq
    exact ⟨fun k => by simp, fun h => h⟩
  | cons p rest ih =>
    obtain ⟨key, value⟩ := p
    intro acc ns st out heq
    rcases hres : process_json_type_with_value language maxDepth value key ns st with e | r
    · rw [create_unified_obj_loop.eq_def] at heq
      simp [hres] at heq
    · obtain ⟨⟨ftype, isArray⟩, nested1, st1⟩ := r
      rw [create_unified_obj_loop.eq_def] at heq
      simp only [hres] at heq
      obtain ⟨hopt, hnd⟩ :=
        ih (updateUnified key ftype (isNullB value) isArray acc) nested1 st1 out heq
      refine ⟨?_, fun h => hnd (updateUnified_nodup key ftype (isNullB value) isArray h)⟩
      intro k
      rw [hopt k, optAt_updateUnified]
      by_cases hk : k = key
      · subst hk
        simp [Bool.or_assoc]
      · rw [if_neg hk]
        have hkk : ((key == k) = false) := by
          simp only [beq_eq_false_iff_ne, ne_eq]
          exact fun hc => hk hc.symm
        simp only [List.any_cons, hkk, Bool.false_and, Bool.false_or]

/-- Element-level invariant of the unification loop: only object elements
contribute, and the optional flag of each key is the OR of the null
occurrences of that key over the elements. -/
theorem create_unified_loop_flags (language : String) (maxDepth : Nat) :
    ∀ (elems : List Json) acc ns st out,
    create_unified_loop language maxDepth elems acc ns st = .ok out →
    (∀ k, optAt k out.1 = (optAt k acc || someNullAt k elems)) ∧
    ((acc.map Prod.fst).Nodup → (out.1.map Prod.fst).Nodup) := by
  intro elems
  induction elems with
  | nil =>
    intro acc ns st out heq
    rw [create_unified_loop.eq_def] at heq
    simp only [Except.ok.injEq] at heq
    subst heq
    exact ⟨fun k => by simp [someNullAt], fun h => h⟩
  | cons element rest ih =>
    intro acc ns st out heq
    cases element with
    | obj fs =>
      rcases hres : create_unified_obj_loop language maxDepth (sortPairs fs) acc ns st
        with e | r
      · rw [create_unified_loop.eq_def] at heq
        simp [hres] at heq
      · obtain ⟨acc1, nested1, st1⟩ := r
        rw [create_unified_loop.eq_def] at heq
        simp only [hres] at heq
        obtain ⟨ho1, hn1⟩ := create_unified_obj_loop_flags language maxDepth (sortPairs fs)
          acc ns st (acc1, nested1, st1) hres
        obtain ⟨ho2, hn2⟩ := ih acc1 nested1 st1 out heq
        simp only at ho1 hn1
        refine ⟨?_, fun h => hn2 (hn1 h)⟩
        intro k
        rw [ho2 k, ho1 k]
        simp only [someNullAt, List.any_cons, objHasNullAt, Bool.or_assoc]
    | null =>
      rw [create_unified_loop.eq_def] at heq
      have heq2 : create_unified_loop language maxDepth rest acc ns st = .ok out := heq
      obtain ⟨ho2, hn2⟩ := ih acc ns st out heq2
      refine ⟨?_, hn2⟩
      intro k
      rw [ho2 k]
      simp only [someNullAt, List.any_cons, objHasNullAt, Bool.false_or]
    | bool b =>
      rw [create_unified_loop.eq_def] at heq
      have heq2 : create_unified_loop language maxDepth rest acc ns st = .ok out := heq
      obtain ⟨ho2, hn2⟩ := ih acc ns st out heq2
      refine ⟨?_, hn2⟩
      intro k
      rw [ho2 k]
      simp only [someNullAt, List.any_cons, objHasNullAt, Bool.false_or]
    | str s =>
      rw [create_unified_loop.eq_def] at heq
      have heq2 : create_unified_loop language maxDepth rest acc ns st = .ok out := heq
      obtain ⟨ho2, hn2⟩ := ih acc ns st out heq2
      refine ⟨?_, hn2⟩
      intro k
      rw [ho2 k]
      simp only [someNullAt, List.any_cons, objHasNullAt, Bool.false_or]
    | int n =>
      rw [create_unified_loop.eq_def] at heq
      have heq2 : create_unified_loop language maxDepth rest acc ns st = .ok out := heq
      obtain ⟨ho2, hn2⟩ := ih acc ns st out heq2
      refine ⟨?_, hn2⟩
      intro k
      rw [ho2 k]
      simp only [someNullAt, List.any_cons, objHasNullAt, Bool.false_or]
    | float n =>
      rw [create_unified_loop.eq_def] at heq
      have heq2 : create_unified_loop language maxDepth rest acc ns st = .ok out := heq
      obtain ⟨ho2, hn2⟩ := ih acc ns st out heq2
      refine ⟨?_, hn2⟩
      intro k
      rw [ho2 k]
      simp only [someNullAt, List.any_cons, objHasNullAt, Bool.false_or]
    | arr es =>
      rw [create_unified_loop.eq_def] at heq
      have heq2 : create_unified_loop language maxDepth rest acc ns st = .ok out := heq
      obtain ⟨ho2, hn2⟩ := ih acc ns st out heq2
      refine ⟨?_, hn2⟩
      intro k
      rw [ho2 k]
      simp only [someNullAt, List.any_cons, objHasNullAt, Bool.false_or]

/-- C1 (amended): in the merged record synthesized from an array of
objects, a field is marked optional exactly when at least one occurrence
of its key among the object elements was null; a key merely absent from
some element is not marked optional. -/
theorem C1_unified_optional_iff_null (language : String) (maxDepth : Nat)
    (elems : List Json) (structName : String) (st : ConvState)
    (out : StructDefinition × ConvState)
    (h : create_unified_struct_from_array language maxDepth elems structName st = .ok out) :
    ∀ f ∈ out.1.fields, f.is_optional = someNullAt f.json_name elems := by
  rw [create_unified_struct_from_array.eq_def] at h
  split at h
  · simp at h
  · rename_i res uf nestedLocal st1 hloop
    simp only [Except.ok.injEq] at h
    subst h
    intro f hf
    simp only [List.mem_map] at hf
    obtain ⟨p, hp, rfl⟩ := hf
    simp only
    have hpm : p ∈ uf := (List.perm_insertionSort entryLe uf).mem_iff.mp hp
    obtain ⟨hopt, hnd⟩ := create_unified_loop_flags language maxDepth elems [] [] st
      (uf, nestedLocal, st1) hloop
    have hnodup : (uf.map Prod.fst).Nodup := hnd (by simp)
    have hfind : findU p.1 uf = some p.2 := findU_of_mem hnodup hpm
    have h1 : optAt p.1 uf = p.2.2.1 := by
      simp [optAt, hfind]
    have h2 := hopt p.1
    simp only at h2
    rw [h1] at h2
    simpa [optAt, findU] using h2

/-- Witness for C1: the key x is null in the first object element, so the
unified field x is optional. -/
theorem C1_unified_optional_iff_null_witness :
    create_unified_struct_from_array "go" 20
        [Json.obj [("x", Json.null)], Json.obj [("x", Json.int 1)]] "Item" ⟨[], [], 0⟩ =
      .ok ({ name := "Item",
             fields := [
               { json_name := "x", code_name := "X", field_type := .any,
                 is_optional := true, is_array := false, comments := [],
                 metadata := [] }],
             nested_structs := [], comments := [], metadata := [] }, ⟨[], [], 0⟩) ∧
    ({ json_name := "x", code_name := "X", field_type := .any,
       is_optional := true, is_array := false, comments := [],
       metadata := [] } : FieldDefinition).is_optional =
      someNullAt "x" [Json.obj [("x", Json.null)], Json.obj [("x", Json.int 1)]] := by
  have p1 : process_json_type_with_value "go" 20 Json.null "x" []
      (⟨[], [], 0⟩ : ConvState) =
      .ok ((.any, false), [], ⟨[], [], 0⟩) := process_null
  have o1 : create_unified_obj_loop "go" 20 (sortPairs [("x", Json.null)]) [] []
      (⟨[], [], 0⟩ : ConvState) =
      .ok ([("x", .any, true, false)], [], ⟨[], [], 0⟩) :=
    create_unified_obj_loop_cons_ok p1 create_unified_obj_loop_nil
  have p2 : process_json_type_with_value "go" 20 (Json.int 1) "x"
      [] (⟨[], [], 0⟩ : ConvState) =
      .ok ((.integer, false), [], ⟨[], [], 0⟩) := process_int
  have o2 : create_unified_obj_loop "go" 20 (sortPairs [("x", Json.int 1)])
      [("x", .any, true, false)] [] (⟨[], [], 0⟩ : ConvState) =
      .ok ([("x", .any, true, false)], [], ⟨[], [], 0⟩) :=
    create_unified_obj_loop_cons_ok p2 create_unified_obj_loop_nil
  have hl : create_unified_loop "go" 20
      [Json.obj [("x", Json.null)], Json.obj [("x", Json.int 1)]] [] []
      (⟨[], [], 0⟩ : ConvState) =
      .ok ([("x", .any, true, false)], [], ⟨[], [], 0⟩) :=
    create_unified_loop_cons_obj o1
      (create_unified_loop_cons_obj o2 create_unified_loop_nil)
  have heval : create_unified_struct_from_array "go" 20
      [Json.obj [("x", Json.null)], Json.obj [("x", Json.int 1)]] "Item" ⟨[], [], 0⟩ =
      .ok ({ name := "Item",
             fields := [
               { json_name := "x", code_name := "X", field_type := .any,
                 is_optional := true, is_array := false, comments := [],
                 metadata := [] }],
             nested_structs := [], comments := [], metadata := [] }, ⟨[], [], 0⟩) :=
    create_unified_struct_from_array_ok hl
  refine ⟨heval, ?_⟩
  exact C1_unified_optional_iff_null "go" 20 _ "Item" _ _ heval _
    (List.mem_singleton.mpr rfl)

/-- Counterexample to C1 as stated: the key y is present only in the first
object element and is never null, yet the unified field y is not marked
optional — absence from a sampled object does not make a field optional. -/
theorem C1_counterexample :
    create_unified_struct_from_array "go" 20
        [Json.obj [("x", Json.int 1), ("y", Json.str "s")], Json.obj [("x", Json.int 2)]]
        "Item" ⟨[], [], 0⟩ =
      .ok ({ name := "Item",
             fields := [
               { json_name := "x", code_name := "X", field_type := .integer,
                 is_optional := false, is_array := false, comments := [],
                 metadata := [] },
               { json_name := "y", code_name := "Y", field_type := .string,
                 is_optional := false, is_array := false, comments := [],
                 metadata := [] }],
             nested_structs := [], comments := [], metadata := [] }, ⟨[], [], 0⟩) := by
  have p1 : process_json_type_with_value "go" 20 (Json.int 1) "x" []
      (⟨[], [], 0⟩ : ConvState) =
      .ok ((.integer, false), [], ⟨[], [], 0⟩) := process_int
  have p2 : process_json_type_with_value "go" 20 (Json.str "s") "y" []
      (⟨[], [], 0⟩ : ConvState) =
      .ok ((.string, false), [], ⟨[], [], 0⟩) := process_str
  have o1b : create_unified_obj_loop "go" 20 [("y", Json.str "s")]
      [("x", .integer, false, false)] [] (⟨[], [], 0⟩ : ConvState) =
      .ok ([("x", .integer, false, false), ("y", .string, false, false)], [],
           ⟨[], [], 0⟩) :=
    create_unified_obj_loop_cons_ok p2 create_unified_obj_loop_nil
  have o1 : create_unified_obj_loop "go" 20
      (sortPairs [("x", Json.int 1), ("y", Json.str "s")]) [] []
      (⟨[], [], 0⟩ : ConvState) =
      .ok ([("x", .integer, false, false), ("y", .string, false, false)], [],
           ⟨[], [], 0⟩) :=
    create_unified_obj_loop_cons_ok p1 o1b
  have p3 : process_json_type_with_value "go" 20 (Json.int 2) "x" []
      (⟨[], [], 0⟩ : ConvState) =
      .ok ((.integer, false), [], ⟨[], [], 0⟩) := process_int
  have o2 : create_unified_obj_loop "go" 20 (sortPairs [("x", Json.int 2)])
      [("x", .integer, false, false), ("y", .string, false, false)] []
      (⟨[], [], 0⟩ : ConvState) =
      .ok ([("x", .integer, false, false), ("y", .string, false, false)], [],
           ⟨[], [], 0⟩) :=
    create_unified_obj_loop_cons_ok p3 create_unified_obj_loop_nil
  have hl : create_unified_loop "go" 20
      [Json.obj [("x", Json.int 1), ("y", Json.str "s")], Json.obj [("x", Json.int 2)]]
      [] [] (⟨[], [], 0⟩ : ConvState) =
      .ok ([("x", .integer, false, false), ("y", .string, false, false)], [],
           ⟨[], [], 0⟩) :=
    create_unified_loop_cons_obj o1
      (create_unified_loop_cons_obj o2 create_unified_loop_nil)
  exact create_unified_struct_from_array_ok hl

end J2s
